import Mathlib

/-
  Verification of the Fem_Genstat gender-stratified analysis engine.

  Shallow embedding of the backend services:
    backend/services/summarize.py   (gender summaries, group statistics, suppression)
    backend/services/test_select.py (hypothesis-test selection and execution wrappers)
    backend/services/fdr.py         (Benjamini-Hochberg FDR correction)
    backend/services/gender_bias.py (representation-gap assessment)
    backend/routers/analyze.py      (TestResult construction, per-variable pipeline)

  Conventions of the embedding:
  - pandas/NumPy cell values are modelled by `PyVal`: a rational number, the float
    NaN, a Python string, or Python None.  Machine floats are modelled by exact
    rationals; the floating-point rounding error of the source is immaterial to
    every property proved here.
  - External SciPy / pingouin statistical routines (t-test, Mann-Whitney U,
    Welch ANOVA, Kruskal-Wallis, chi-square, Fisher exact) are opaque numerical
    calls from the point of view of this repository; they are modelled as an
    oracle record `StatOracle` whose calls either return the (statistic, p) pair
    or raise an exception (`Except.error`).  The repository code around the calls
    (branch selection, try/except conversion, result dictionaries) is embedded
    faithfully.
  - Python `round` (banker's rounding) is modelled exactly by `roundHalfEven`.
-/

/- Model of a Python / pandas cell or dictionary value. -/
inductive PyVal where
  | num (q : ℚ)
  | nan
  | str (s : String)
  | none
  deriving DecidableEq, Repr

/- Python round() rounds half to even (banker's rounding). -/
def roundHalfEven (q : ℚ) : ℤ :=
  let f := ⌊q⌋
  let r := q - f
  if r < 1/2 then f
  else if 1/2 < r then f + 1
  else if 2 ∣ f then f else f + 1

/- Python round(x, nd). -/
def pyRound (nd : ℕ) (q : ℚ) : ℚ :=
  (roundHalfEven (q * 10 ^ nd) : ℚ) / 10 ^ nd

/- round(x, nd) lifted to cell values: round(nan, nd) = nan. -/
def roundPyVal (nd : ℕ) : PyVal → PyVal
  | .num q => .num (pyRound nd q)
  | v => v

/-
  summarize.py: summarize_by_gender.
  The function only reads the gender column of the DataFrame, so the embedding
  takes that column (a list of possibly-null strings) directly.
  Python source:
    for gender in categories_order:
        if gender in df[gender_col].values:
            gender_data = df[df[gender_col] == gender]
            n = len(gender_data)
            pct = (n / total_n) * 100
            missing_pct = (gender_data[gender_col].isna().sum() / n) * 100 if n > 0 else 0
            summaries.append(GenderSummary(gender, n, round(pct,2), round(missing_pct,2)))
-/
structure GenderSummary where
  gender : String
  n : ℕ
  pct : ℚ
  missing_pct : ℚ
  deriving DecidableEq, Repr

def summarize_by_gender (genderColumn : List (Option String)) (categories_order : List String) :
    List GenderSummary :=
  let total_n := genderColumn.length
  categories_order.filterMap (fun gender =>
    if some gender ∈ genderColumn then
      let gender_data := genderColumn.filter (fun v => v == some gender)
      let n := gender_data.length
      let pct := (n : ℚ) / total_n * 100
      let missing_pct :=
        if 0 < n then
          ((gender_data.filter (fun v => v == (Option.none : Option String))).length : ℚ) / n * 100
        else 0
      some ⟨gender, n, pyRound 2 pct, pyRound 2 missing_pct⟩
    else Option.none)

/-
  Python str.lower(), for the `.lower()` normalization calls of the source.
  (Defined over the character list so that it evaluates by kernel reduction;
  identical to `String.toLower`.)
-/
def strLower (s : String) : String := ⟨s.data.map Char.toLower⟩

/-
  test_select.py.
  A DataFrame restricted to the two columns read by the continuous path:
  the gender column and the analysed continuous variable (plus the optional
  weight column used by summarize_continuous_variable).  A null cell (NaN)
  is `Option.none`.
-/
structure CRow where
  gender : Option String
  value : Option ℚ
  weight : Option ℚ
  deriving DecidableEq, Repr

/- The rows of df[df[gender_col] == gender] (NaN compares unequal to any string). -/
def genderRows (df : List CRow) (gender : String) : List CRow :=
  df.filter (fun r => r.gender == some gender)

/- gender_data[var].dropna() for one gender group. -/
def groupData (df : List CRow) (gender : String) : List ℚ :=
  (genderRows df gender).filterMap (·.value)

/-
  test_select.py lines 32-42: the non-empty gender groups, in the order of
  categories_order:
    for gender in categories_order:
        if gender_lower in df[gender_col].values:
            var_data = df[df[gender_col]==gender_lower][var].dropna()
            if len(var_data) > 0: groups.append(var_data)
-/
def contGroups (df : List CRow) (categories_order : List String) : List (String × List ℚ) :=
  categories_order.filterMap (fun gender =>
    if some gender ∈ df.map (·.gender) then
      let var_data := groupData df gender
      if 0 < var_data.length then some (gender, var_data) else Option.none
    else Option.none)

/- A normality-test record of summarize.test_normality, as consumed by the selector. -/
structure NormalityTest where
  var : String
  gender : String
  test : String
  p : Option ℚ
  statistic : Option ℚ
  deriving DecidableEq, Repr

/-
  test_select.py lines 47-54: normal_groups is False iff some already-computed
  normality test for this variable has a non-null p below 0.05.
-/
def normalGroups (var : String) (normality_tests : List NormalityTest) : Bool :=
  !(normality_tests.any (fun t => t.var == var &&
      (match t.p with
       | some p => decide (p < 5/100)
       | Option.none => false)))

/-
  The result dictionary of the _run_* helpers.  Keys can be absent
  (the insufficient-data dictionaries carry only "note"), which is modelled
  by `Option.none` at the field level; a present "df": None is `some .none`.
  `dfree` embeds the source's "df" key (renamed: `df` names DataFrames here).
-/
structure TestDict where
  statistic : Option PyVal := Option.none
  p : Option PyVal := Option.none
  dfree : Option PyVal := Option.none
  assumptions_met : Option Bool := Option.none
  note : Option String := Option.none
  deriving DecidableEq, Repr

/-
  The external SciPy / pingouin statistical calls, as an oracle: each call
  either returns its numbers or raises (Except.error carries str(e)).
  The repository's code never inspects these numbers except to round and
  store them, so all properties below hold for every oracle.
  welch_anova returns (F, p-unc, ddof1, ddof2); the two-sample tests and
  fisher_exact return (statistic, p); chi2_contingency returns (chi2, p) -
  its dof and expected-frequency outputs are the deterministic functions
  of the table embedded separately below.
-/
structure StatOracle where
  ttest_ind : List ℚ → List ℚ → Except String (ℚ × ℚ)
  mannwhitneyu : List ℚ → List ℚ → Except String (ℚ × ℚ)
  welch_anova : List (List ℚ) → Except String (ℚ × ℚ × ℚ × ℚ)
  kruskal : List (List ℚ) → Except String (ℚ × ℚ)
  chi2_contingency : List (List ℕ) → Except String (ℚ × ℚ)
  fisher_exact : List (List ℕ) → Except String (ℚ × ℚ)

/- test_select.py _run_welch_ttest. -/
def run_welch_ttest (orc : StatOracle) (group1 group2 : List ℚ) : TestDict :=
  match orc.ttest_ind group1 group2 with
  | .ok (s, p) =>
      { statistic := some (.num (pyRound 4 s)), p := some (.num (pyRound 4 p)),
        dfree := some (.num ((group1.length : ℚ) + (group2.length : ℚ) - 2)),
        assumptions_met := some true,
        note := some "Welch\x27s t-test (unequal variances assumed)" }
  | .error e =>
      { statistic := some .nan, p := some .nan, dfree := some .none,
        assumptions_met := some false, note := some ("Error in t-test: " ++ e) }

/- test_select.py _run_mann_whitney. -/
def run_mann_whitney (orc : StatOracle) (group1 group2 : List ℚ) : TestDict :=
  match orc.mannwhitneyu group1 group2 with
  | .ok (s, p) =>
      { statistic := some (.num (pyRound 4 s)), p := some (.num (pyRound 4 p)),
        dfree := some .none, assumptions_met := some true,
        note := some "Mann-Whitney U test (non-parametric)" }
  | .error e =>
      { statistic := some .nan, p := some .nan, dfree := some .none,
        assumptions_met := some false, note := some ("Error in Mann-Whitney test: " ++ e) }

/- test_select.py _run_welch_anova (pingouin call on the stacked long-format data). -/
def run_welch_anova (orc : StatOracle) (groups : List (List ℚ)) : TestDict :=
  match orc.welch_anova groups with
  | .ok (f, p, d1, d2) =>
      { statistic := some (.num (pyRound 4 f)), p := some (.num (pyRound 4 p)),
        dfree := some (.str (toString d1 ++ ", " ++ toString d2)),
        assumptions_met := some true,
        note := some "Welch\x27s ANOVA (unequal variances assumed)" }
  | .error e =>
      { statistic := some .nan, p := some .nan, dfree := some .none,
        assumptions_met := some false, note := some ("Error in Welch ANOVA: " ++ e) }

/- test_select.py _run_kruskal_wallis. -/
def run_kruskal_wallis (orc : StatOracle) (groups : List (List ℚ)) : TestDict :=
  match orc.kruskal groups with
  | .ok (s, p) =>
      { statistic := some (.num (pyRound 4 s)), p := some (.num (pyRound 4 p)),
        dfree := some (.num ((groups.length : ℚ) - 1)), assumptions_met := some true,
        note := some "Kruskal-Wallis test (non-parametric)" }
  | .error e =>
      { statistic := some .nan, p := some .nan, dfree := some .none,
        assumptions_met := some false, note := some ("Error in Kruskal-Wallis test: " ++ e) }

/-
  test_select.py select_continuous_test, lines 44-66.  For a variable present
  in the DataFrame (column existence is a precondition of this two-column
  DataFrame model; the absent-column branch returns the same keyless
  "insufficient_data" dictionary as the <2-groups branch).
-/
def select_continuous_test (orc : StatOracle) (df : List CRow) (var : String)
    (categories_order : List String) (normality_tests : List NormalityTest) :
    String × TestDict :=
  let var := strLower var
  let categories_order := categories_order.map strLower
  match contGroups df categories_order with
  | [] => ("insufficient_data", { note := some "Less than 2 groups with data" })
  | [_] => ("insufficient_data", { note := some "Less than 2 groups with data" })
  | g1 :: g2 :: rest =>
    let normal := normalGroups var normality_tests
    if rest.isEmpty then
      if normal then ("welch_ttest", run_welch_ttest orc g1.2 g2.2)
      else ("mann_whitney", run_mann_whitney orc g1.2 g2.2)
    else
      let groups := (g1 :: g2 :: rest).map Prod.snd
      if normal then ("welch_anova", run_welch_anova orc groups)
      else ("kruskal_wallis", run_kruskal_wallis orc groups)

/-
  The categorical path: a DataFrame restricted to the analysed categorical
  variable and the gender column.
-/
structure KRow where
  level : Option String
  gender : Option String
  deriving DecidableEq, Repr

/-
  pd.crosstab(df[var], df[gender_col]) restricted to
  columns ∈ categories_order (test_select.py lines 86-92).  crosstab drops
  rows where either entry is null.  (pandas sorts the row/column labels;
  first-occurrence order is used here instead - the shape, the expected
  frequencies as a set, and hence the selected test are unaffected.)
-/
structure CTable where
  rowLabels : List String
  colLabels : List String
  counts : List (List ℕ)
  deriving DecidableEq, Repr

def crosstabPairs (df : List KRow) : List (String × String) :=
  df.filterMap (fun r =>
    match r.level, r.gender with
    | some l, some g => some (l, g)
    | _, _ => Option.none)

def crosstab_restricted (df : List KRow) (categories_order : List String) : CTable :=
  let pairs := crosstabPairs df
  let rowLabels := (pairs.map Prod.fst).dedup
  let colLabels := ((pairs.map Prod.snd).dedup).filter (fun g => g ∈ categories_order)
  { rowLabels := rowLabels, colLabels := colLabels,
    counts := rowLabels.map (fun l => colLabels.map (fun g => pairs.count (l, g))) }

/- Row sums, column sums and total of a contingency table. -/
def rowSums (t : CTable) : List ℕ := t.counts.map (·.sum)

def colSums (t : CTable) : List ℕ :=
  (List.range t.colLabels.length).map (fun j => (t.counts.map (fun r => r.getD j 0)).sum)

def grandTotal (t : CTable) : ℕ := (rowSums t).sum

/-
  The expected frequencies computed by scipy.stats.chi2_contingency:
  expected[i][j] = rowsum_i * colsum_j / total, under independence.
-/
def expectedFreqs (t : CTable) : List ℚ :=
  (rowSums t).flatMap (fun ri =>
    (colSums t).map (fun cj => ((ri : ℚ) * (cj : ℚ)) / (grandTotal t : ℚ)))

/- expected.min() (test_select.py line 99). -/
def minExpected (t : CTable) : ℚ :=
  match expectedFreqs t with
  | [] => 0
  | x :: xs => xs.foldl min x

/-
  scipy.stats.chi2_contingency validates its input before returning: it
  raises ValueError when the internally computed expected-frequency table
  has a zero element.  After the column restriction this is reachable (a
  variable level observed only among gender values outside categories_order
  leaves an all-zero row), and the call at test_select.py line 98 sits
  outside every try/except, so the exception escapes the selector.
-/
def expectedHasZero (t : CTable) : Bool :=
  (expectedFreqs t).any (fun e => e == 0)

/- test_select.py _run_chi_square; dof = (r-1)(c-1) as computed by scipy. -/
def run_chi_square (orc : StatOracle) (t : CTable) (warning : Bool) : TestDict :=
  match orc.chi2_contingency t.counts with
  | .ok (chi2, p) =>
      { statistic := some (.num (pyRound 4 chi2)), p := some (.num (pyRound 4 p)),
        dfree := some (.num (((t.rowLabels.length - 1) * (t.colLabels.length - 1) : ℕ) : ℚ)),
        assumptions_met := some (!warning),
        note := some (if warning then
          "Chi-square test of independence (some expected frequencies < 5, interpret with caution)"
          else "Chi-square test of independence") }
  | .error e =>
      { statistic := some .nan, p := some .nan, dfree := some .none,
        assumptions_met := some false, note := some ("Error in chi-square test: " ++ e) }

/- test_select.py _run_fisher_exact (including its own 2x2 re-check). -/
def run_fisher_exact (orc : StatOracle) (t : CTable) : TestDict :=
  if !(t.rowLabels.length == 2 && t.colLabels.length == 2) then
    { statistic := some .nan, p := some .nan, dfree := some .none,
      assumptions_met := some false,
      note := some "Fisher\x27s exact test only available for 2x2 tables" }
  else
    match orc.fisher_exact t.counts with
    | .ok (odds, p) =>
        { statistic := some (.num (pyRound 4 odds)), p := some (.num (pyRound 4 p)),
          dfree := some .none, assumptions_met := some true,
          note := some "Fisher\x27s exact test (2x2 table)" }
    | .error e =>
        { statistic := some .nan, p := some .nan, dfree := some .none,
          assumptions_met := some false, note := some ("Error in Fisher\x27s exact test: " ++ e) }

/-
  test_select.py select_categorical_test, lines 68-108.  The `.empty` test of
  the source is subsumed by the two shape tests (an empty table has 0 rows or
  0 columns).  The expected-frequency computation of line 98,
  `stats.chi2_contingency(contingency_table)[3]`, is NOT wrapped in
  try/except; when the restricted table has a zero expected cell the scipy
  call raises ValueError and the selector (and analyze_data) aborts, which
  the model surfaces as `Except.error` before any test branch is chosen.
-/
def select_categorical_test (orc : StatOracle) (df : List KRow)
    (categories_order : List String) : Except String (String × TestDict) :=
  let categories_order := categories_order.map strLower
  let t := crosstab_restricted df categories_order
  if t.rowLabels.length < 2 || t.colLabels.length < 2 then
    .ok ("insufficient_data", { note := some "Insufficient data for contingency table" })
  else if expectedHasZero t then
    .error "ValueError: The internally computed table of expected frequencies has a zero element"
  else if minExpected t < 5 then
    if t.rowLabels.length == 2 && t.colLabels.length == 2 then
      .ok ("fisher_exact", run_fisher_exact orc t)
    else
      .ok ("chi_square", run_chi_square orc t true)
  else
    .ok ("chi_square", run_chi_square orc t false)

/-
  routers/analyze.py lines 94-114 (and the identical categorical block
  143-162): conversion of the selector's (name, dict) into a TestResult.
  p/statistic: dict.get(key, 0.0), then None or NaN becomes the "N/A" string.
  df: dict.get("df"), None or NaN becomes None.
-/
structure TestResult where
  name : String
  p : PyVal
  statistic : PyVal
  dfree : Option PyVal
  assumptions_met : Bool
  note : Option String
  deriving DecidableEq, Repr

def sentinelize (v : Option PyVal) : PyVal :=
  match v.getD (.num 0) with
  | .none => .str "N/A"
  | .nan => .str "N/A"
  | w => w

def dfValize (v : Option PyVal) : Option PyVal :=
  match v.getD .none with
  | .none => Option.none
  | .nan => Option.none
  | w => some w

def mkTestResult (test_name : String) (d : TestDict) : TestResult :=
  { name := test_name, p := sentinelize d.p, statistic := sentinelize d.statistic,
    dfree := dfValize d.dfree, assumptions_met := d.assumptions_met.getD true,
    note := d.note }

/- The TestResult produced for one continuous variable by analyze_data. -/
def analyzeContinuousTest (orc : StatOracle) (df : List CRow) (var : String)
    (categories_order : List String) (normality_tests : List NormalityTest) : TestResult :=
  let r := select_continuous_test orc df var categories_order normality_tests
  mkTestResult r.1 r.2

/-
  The TestResult produced for one categorical variable by analyze_data
  (the uncaught ValueError of the selector propagates through analyze_data,
  hence the Except result).
-/
def analyzeCategoricalTest (orc : StatOracle) (df : List KRow)
    (categories_order : List String) : Except String TestResult :=
  (select_categorical_test orc df categories_order).map (fun r => mkTestResult r.1 r.2)

/-
  The outcome of the one external statistical call that
  select_continuous_test actually executes (the specification-side view of
  "a numerical failure occurred"), mirroring the selector's dispatch.
-/
def contExecutedCall (orc : StatOracle) (df : List CRow) (var : String)
    (categories_order : List String) (normality_tests : List NormalityTest) :
    Except String Unit :=
  let var := strLower var
  let categories_order := categories_order.map strLower
  match contGroups df categories_order with
  | [] => .ok ()
  | [_] => .ok ()
  | g1 :: g2 :: rest =>
    let normal := normalGroups var normality_tests
    if rest.isEmpty then
      if normal then (orc.ttest_ind g1.2 g2.2).map (fun _ => ())
      else (orc.mannwhitneyu g1.2 g2.2).map (fun _ => ())
    else
      let groups := (g1 :: g2 :: rest).map Prod.snd
      if normal then (orc.welch_anova groups).map (fun _ => ())
      else (orc.kruskal groups).map (fun _ => ())

/-
  Likewise for the categorical selector: the uncaught line-98 raise on a
  zero expected cell comes first, then the caught statistical call of the
  chosen branch.
-/
def catExecutedCall (orc : StatOracle) (df : List KRow)
    (categories_order : List String) : Except String Unit :=
  let categories_order := categories_order.map strLower
  let t := crosstab_restricted df categories_order
  if t.rowLabels.length < 2 || t.colLabels.length < 2 then .ok ()
  else if expectedHasZero t then
    .error "ValueError: The internally computed table of expected frequencies has a zero element"
  else if minExpected t < 5 then
    if t.rowLabels.length == 2 && t.colLabels.length == 2 then
      (orc.fisher_exact t.counts).map (fun _ => ())
    else (orc.chi2_contingency t.counts).map (fun _ => ())
  else (orc.chi2_contingency t.counts).map (fun _ => ())

/- Concrete oracles used to instantiate witnesses and counterexamples. -/
def constOracle : StatOracle :=
  { ttest_ind := fun _ _ => .ok (0, 0), mannwhitneyu := fun _ _ => .ok (0, 0),
    welch_anova := fun _ => .ok (0, 0, 0, 0), kruskal := fun _ => .ok (0, 0),
    chi2_contingency := fun _ => .ok (0, 0), fisher_exact := fun _ => .ok (0, 0) }

/- An oracle on which every statistical routine raises. -/
def failOracle (e : String) : StatOracle :=
  { ttest_ind := fun _ _ => .error e, mannwhitneyu := fun _ _ => .error e,
    welch_anova := fun _ => .error e, kruskal := fun _ => .error e,
    chi2_contingency := fun _ => .error e, fisher_exact := fun _ => .error e }

/- Concrete data: a continuous variable observed in a single gender group. -/
def dfOneGroup : List CRow :=
  [⟨some "female", some 1, Option.none⟩, ⟨some "female", some 2, Option.none⟩]

/- Concrete data: a continuous variable observed in two gender groups. -/
def dfTwoGroups : List CRow :=
  [⟨some "female", some 1, Option.none⟩, ⟨some "male", some 2, Option.none⟩]

/- Concrete data: a 2x2 categorical table with all expected counts equal to 1. -/
def dfTwoByTwo : List KRow :=
  [⟨some "a", some "female"⟩, ⟨some "a", some "male"⟩,
   ⟨some "b", some "female"⟩, ⟨some "b", some "male"⟩]

/-
  Concrete data: the level "c" is observed only among the gender "other",
  which the requested category order excludes, so the restricted table keeps
  an all-zero row and the expected-frequency table has zero cells.
-/
def dfZeroRow : List KRow :=
  [⟨some "a", some "female"⟩, ⟨some "a", some "male"⟩,
   ⟨some "b", some "female"⟩, ⟨some "b", some "male"⟩,
   ⟨some "c", some "other"⟩, ⟨some "c", some "other"⟩]

/-
  fdr.py _benjamini_hochberg, lines 53-92:
    sorted_indices = np.argsort(p_values); sorted_p = p_values[sorted_indices]
    corrected_p[i] = sorted_p[i] * m / (i + 1)
    for i in range(m-2, -1, -1): corrected_p[i] = min(corrected_p[i], corrected_p[i+1])
    corrected_p = np.minimum(corrected_p, 1.0)
    result[sorted_indices] = corrected_p
  The backwards running-minimum loop is `suffMin` (suffix minima); the final
  scatter is read off pointwise: result[k] = corrected_p[index of k among
  sorted_indices].  np.argsort's tie order is unspecified (quicksort); any
  sort by value is a faithful model, mergeSort is used here.
-/
def suffMin : List ℚ → List ℚ
  | [] => []
  | [x] => [x]
  | x :: y :: rest =>
    match suffMin (y :: rest) with
    | [] => [x]
    | m :: ms => min x m :: m :: ms

def bhRanked (sorted_p : List ℚ) (m : ℕ) : List ℚ :=
  (List.range sorted_p.length).map (fun i => sorted_p.getD i 0 * m / (i + 1))

def argsortIdx (p_values : List ℚ) : List ℕ :=
  (List.range p_values.length).mergeSort
    (fun i j => decide (p_values.getD i 0 ≤ p_values.getD j 0))

def bhSortedP (p_values : List ℚ) : List ℚ :=
  (argsortIdx p_values).map (fun i => p_values.getD i 0)

def bhAdj (p_values : List ℚ) : List ℚ :=
  (suffMin (bhRanked (bhSortedP p_values) p_values.length)).map (fun x => min x 1)

def _benjamini_hochberg (p_values : List ℚ) : List ℚ :=
  (List.range p_values.length).map
    (fun k => (bhAdj p_values).getD ((argsortIdx p_values).indexOf k) 0)

/-
  fdr.py np.isnan as applied to a dictionary p-value: defined on floats
  (False on numbers, True on NaN), raises TypeError on strings and None.
-/
def np_isnan : PyVal → Except String Bool
  | .num _ => .ok false
  | .nan => .ok true
  | .str _ => .error "TypeError: isnan not supported for str"
  | .none => .error "TypeError: isnan not supported for NoneType"

/-
  fdr.py lines 24-31 (and the identical per-family loops of
  apply_fdr_to_analysis_results, lines 111-131): walk the values with their
  indices, keep (index, value) for the entries whose np.isnan is False;
  `not np.isnan(p) and p is not None` evaluates np.isnan first, so a
  non-float raises before the None test is reached.
-/
def validEntries : ℕ → List PyVal → Except String (List (ℕ × ℚ))
  | _, [] => .ok []
  | i, v :: rest => do
    let isn ← np_isnan v
    let tail ← validEntries (i + 1) rest
    match isn, v with
    | false, .num q => .ok ((i, q) :: tail)
    | _, _ => .ok tail

/-
  fdr.py lines 46-49: result = [nan]*len; result[i] = corrected for the valid
  indices.  Read off pointwise (the valid indices are strictly increasing, so
  find? locates the unique assignment).
-/
def scatterNaN (len : ℕ) (idxs : List ℕ) (vals : List ℚ) : List PyVal :=
  (List.range len).map (fun k =>
    match (idxs.zip vals).find? (fun e => e.1 == k) with
    | some e => .num e.2
    | Option.none => .nan)

/- fdr.py apply_fdr_correction (method = "BH"; any other method falls back to BH). -/
def apply_fdr_correction (p_values : List PyVal) : Except String (List PyVal) :=
  if p_values.isEmpty then .ok []
  else do
    let valid ← validEntries 0 p_values
    if valid.isEmpty then .ok (p_values.map (fun _ => PyVal.nan))
    else
      .ok (scatterNaN p_values.length (valid.map Prod.fst)
        (_benjamini_hochberg (valid.map Prod.snd)))

/-
  fdr.py apply_fdr_to_analysis_results, lines 111-135 and 141-149: each
  result dictionary produced by analyze_data has a "test" entry with a "p"
  key, so the per-family extraction is validEntries over the p fields; the
  function returns the per-family (original index, p_fdr) assignments that
  are then written back into the result dictionaries.
-/
def extract_family_pvalues (results : List TestResult) : Except String (List (ℕ × ℚ)) :=
  validEntries 0 (results.map (·.p))

def apply_fdr_to_analysis_results (continuous_results categorical_results : List TestResult) :
    Except String (List (ℕ × PyVal) × List (ℕ × PyVal)) := do
  let contEntries ← extract_family_pvalues continuous_results
  let catEntries ← extract_family_pvalues categorical_results
  let contCorrected ← apply_fdr_correction (contEntries.map (fun e => PyVal.num e.2))
  let catCorrected ← apply_fdr_correction (catEntries.map (fun e => PyVal.num e.2))
  .ok ((contEntries.map Prod.fst).zip contCorrected,
    (catEntries.map Prod.fst).zip catCorrected)

/- Numeric helpers shared by summarize.py and the missing-data handler. -/
def lmean (l : List ℚ) : ℚ := l.sum / l.length

def lmin (l : List ℚ) : ℚ :=
  match l with
  | [] => 0
  | x :: xs => xs.foldl min x

def lmax (l : List ℚ) : ℚ :=
  match l with
  | [] => 0
  | x :: xs => xs.foldl max x

/- pandas Series.std(): sample standard deviation (ddof=1); NaN when n < 2. -/
def sampleSd (sqrtO : ℚ → ℚ) (l : List ℚ) : PyVal :=
  if 2 ≤ l.length then
    .num (sqrtO ((l.map (fun x => (x - lmean l) ^ 2)).sum / ((l.length : ℚ) - 1)))
  else .nan

/- pandas Series.quantile(q) with linear interpolation; median = quantile(0.5). -/
def quantileLin (l : List ℚ) (q : ℚ) : ℚ :=
  let s := l.mergeSort (fun a b => decide (a ≤ b))
  let n := s.length
  let pos := q * ((n : ℚ) - 1)
  let lo := (⌊pos⌋).toNat
  let frac := pos - (⌊pos⌋ : ℚ)
  if lo + 1 < n then s.getD lo 0 + frac * (s.getD (lo + 1) 0 - s.getD lo 0)
  else s.getD lo 0

/-
  np.average with weights: sum(w*x)/sum(w), and the weighted variance of
  summarize.py line 160.  (NumPy raises ZeroDivisionError when the weights
  sum to zero; that branch is modelled as NaN here and is not reached by any
  property below.)
-/
def weightedMean (vals ws : List ℚ) : PyVal :=
  if ws.sum = 0 then .nan
  else .num ((List.zipWith (fun v w => v * w) vals ws).sum / ws.sum)

def weightedVar (vals ws : List ℚ) (m : ℚ) : PyVal :=
  if ws.sum = 0 then .nan
  else .num ((List.zipWith (fun v w => w * (v - m) ^ 2) vals ws).sum / ws.sum)

/-
  summarize.py handle_missing_data.  A DataFrame with named columns; cells
  are PyVal (NaN and None both count as missing for dropna/fillna).
  The three recognised policies all return before the imputation block
  (source lines 30-40 versus 42-53), exactly as in the source.
-/
structure DataFrame where
  cols : List String
  rows : List (List PyVal)
  deriving DecidableEq, Repr

def cellMissing : PyVal → Bool
  | .nan => true
  | .none => true
  | _ => false

def dropna (df : DataFrame) : DataFrame :=
  { df with rows := df.rows.filter (fun r => !(r.any cellMissing)) }

def colValues (df : DataFrame) (j : ℕ) : List PyVal :=
  df.rows.map (fun r => r.getD j .none)

/- pandas is_numeric_dtype: a float column (numbers, possibly with NaN). -/
def isNumericCol (vals : List PyVal) : Bool :=
  vals.all (fun v => match v with | .num _ => true | .nan => true | _ => false)

def colNums (vals : List PyVal) : List ℚ :=
  vals.filterMap (fun v => match v with | .num q => some q | _ => Option.none)

/- df[var].mean() / df[var].median(): NaN on an all-missing column. -/
def colMeanPy (vals : List PyVal) : PyVal :=
  if (colNums vals).isEmpty then .nan else .num (lmean (colNums vals))

def colMedianPy (vals : List PyVal) : PyVal :=
  if (colNums vals).isEmpty then .nan else .num (quantileLin (colNums vals) (1 / 2))

/-
  df[var].mode()[0]: the most frequent non-missing value.  (pandas sorts the
  tied modes and takes the smallest; ties are resolved here by first
  occurrence - the difference is immaterial below, the block is unreachable
  from the recognised policies anyway.)
-/
def modeVal (vals : List PyVal) : Option PyVal :=
  let nm := vals.filter (fun v => !cellMissing v)
  nm.dedup.foldl (fun acc c =>
    match acc with
    | Option.none => some c
    | some b => if nm.count b < nm.count c then some c else acc) Option.none

def fillnaCol (df : DataFrame) (j : ℕ) (v : PyVal) : DataFrame :=
  { df with rows := df.rows.map (fun r =>
      r.mapIdx (fun i c => if i == j && cellMissing c then v else c)) }

def handle_missing_data (df : DataFrame) (missing_policy : String)
    (impute_config : Option (List (String × String))) : DataFrame :=
  if missing_policy == "listwise" then dropna df
  else if missing_policy == "pairwise" then df
  else if missing_policy == "flag" then df
  else
    match impute_config with
    | Option.none => df
    | some cfg =>
      cfg.foldl (fun acc vc =>
        match acc.cols.indexOf? vc.1 with
        | Option.none => acc
        | some j =>
          let vals := colValues acc j
          if vc.2 == "mean" && isNumericCol vals then
            fillnaCol acc j (colMeanPy vals)
          else if vc.2 == "median" && isNumericCol vals then
            fillnaCol acc j (colMedianPy vals)
          else if vc.2 == "mode" then
            match modeVal vals with
            | some m => fillnaCol acc j m
            | Option.none => acc
          else acc) df

/-
  summarize.py summarize_continuous_variable, lines 107-187.  The square
  root of the variance is the one irrational operation; it is abstracted as
  an oracle `sqrtO` (its value never influences control flow).
  `useWeight` models `weight_col and weight_col in df.columns`.
-/
structure ContinuousStats where
  gender : String
  n : PyVal
  mean : PyVal
  sd : PyVal
  median : PyVal
  iqr : PyVal
  min : PyVal
  max : PyVal
  deriving DecidableEq, Repr

def suppressedContRow (gender : String) (suppress_threshold : ℕ) : ContinuousStats :=
  { gender := gender, n := .str ("<" ++ toString suppress_threshold),
    mean := .str "<threshold", sd := .str "<threshold", median := .str "<threshold",
    iqr := .str "<threshold", min := .str "<threshold", max := .str "<threshold" }

def summarize_continuous_variable (sqrtO : ℚ → ℚ) (df : List CRow)
    (categories_order : List String) (useWeight : Bool) (suppress_threshold : ℕ) :
    List ContinuousStats :=
  let categories_order := categories_order.map strLower
  categories_order.flatMap (fun gender =>
    if some gender ∈ df.map (·.gender) then
      let gender_rows := genderRows df gender
      let var_data := gender_rows.filterMap (·.value)
      if var_data.length = 0 then []
      else if var_data.length < suppress_threshold then
        [suppressedContRow gender suppress_threshold]
      else
        let weights := gender_rows.filterMap (·.weight)
        let meanv : PyVal :=
          if useWeight && weights.length == var_data.length then
            weightedMean var_data weights
          else .num (lmean var_data)
        let sdv : PyVal :=
          if useWeight && weights.length == var_data.length then
            match meanv with
            | .num m =>
              match weightedVar var_data weights m with
              | .num v => .num (sqrtO v)
              | w => w
            | w => w
          else sampleSd sqrtO var_data
        [{ gender := gender, n := .num var_data.length,
           mean := roundPyVal 3 meanv,
           sd := roundPyVal 3 sdv,
           median := .num (pyRound 3 (quantileLin var_data (1 / 2))),
           iqr := .num (pyRound 3 (quantileLin var_data (3 / 4) - quantileLin var_data (1 / 4))),
           min := .num (pyRound 3 (lmin var_data)),
           max := .num (pyRound 3 (lmax var_data)) }]
    else [])

/- summarize.py summarize_categorical_variable, lines 189-240. -/
structure CategoricalLevel where
  level : String
  gender : String
  n : PyVal
  pct : PyVal
  deriving DecidableEq, Repr

/- df[var].dropna().unique(), in order of first occurrence. -/
def allLevels (df : List KRow) : List String := (df.filterMap (·.level)).dedup

def kGenderRows (df : List KRow) (gender : String) : List KRow :=
  df.filter (fun r => r.gender == some gender)

def summarize_categorical_variable (df : List KRow) (categories_order : List String)
    (suppress_threshold : ℕ) : List CategoricalLevel :=
  let categories_order := categories_order.map strLower
  let all_values := allLevels df
  categories_order.flatMap (fun gender =>
    if some gender ∈ df.map (·.gender) then
      let gender_data := kGenderRows df gender
      let gender_total := gender_data.length
      all_values.map (fun level =>
        let n := (gender_data.filter (fun r => r.level == some level)).length
        if n < suppress_threshold then
          { level := level, gender := gender,
            n := .str ("<" ++ toString suppress_threshold), pct := .str "<threshold" }
        else
          let pct : ℚ := if 0 < gender_total then (n : ℚ) / (gender_total : ℚ) * 100 else 0
          { level := level, gender := gender, n := .num n, pct := .num (pyRound 1 pct) })
    else [])

/- The sum of the numeric reported percentages of one gender category. -/
def pctSum (levels : List CategoricalLevel) (gender : String) : ℚ :=
  ((levels.filter (fun r => r.gender == gender)).filterMap
    (fun r => match r.pct with | .num q => some q | _ => Option.none)).sum

/-
  The per-variable pipeline of analyze.py lines 82-126 / 130-174: the
  displayed summary table (suppression applied) together with the
  TestResult; the suppression threshold reaches only the table.
-/
def analyzeContinuousVar (orc : StatOracle) (sqrtO : ℚ → ℚ) (df : List CRow) (var : String)
    (categories_order : List String) (normality_tests : List NormalityTest)
    (useWeight : Bool) (suppress_threshold : ℕ) : List ContinuousStats × TestResult :=
  (summarize_continuous_variable sqrtO df categories_order useWeight suppress_threshold,
   analyzeContinuousTest orc df var categories_order normality_tests)

def analyzeCategoricalVar (orc : StatOracle) (df : List KRow)
    (categories_order : List String) (suppress_threshold : ℕ) :
    List CategoricalLevel × Except String TestResult :=
  (summarize_categorical_variable df categories_order suppress_threshold,
   analyzeCategoricalTest orc df categories_order)

/-
  gender_bias.py _assess_representation_gaps, lines 173-247.
  by_gender rows come from GenderSummary dictionaries (defensively typed:
  string-valued n/pct entries are skipped); the categorical tables are the
  summarize_categorical_variable outputs.
-/
structure GenderRow where
  gender : String
  n : PyVal
  pct : PyVal
  deriving DecidableEq, Repr

def toGenderRow (s : GenderSummary) : GenderRow :=
  { gender := s.gender, n := .num (s.n : ℚ), pct := .num s.pct }

structure CatResult where
  var : String
  table : List CategoricalLevel
  deriving DecidableEq, Repr

inductive Gap where
  | imbalance (gender : String) (percentage : ℚ)
  | levelRep (var level gender : String) (percentage : ℚ)
  deriving DecidableEq, Repr

def numOf : PyVal → Option ℚ
  | .num q => some q
  | _ => Option.none

/- total_n = sum of the numeric n entries (line 187). -/
def totalN (by_gender : List GenderRow) : ℚ :=
  (by_gender.filterMap (fun g => numOf g.n)).sum

/- Python dict assignment on an insertion-ordered association list. -/
def upsertA (m : List (String × ℚ)) (k : String) (v : ℚ) : List (String × ℚ) :=
  if m.any (fun e => e.1 == k) then
    m.map (fun e => if e.1 == k then (k, v) else e)
  else m ++ [(k, v)]

def upsertL (m : List (String × List (String × ℚ))) (lv g : String) (c : ℚ) :
    List (String × List (String × ℚ)) :=
  if m.any (fun e => e.1 == lv) then
    m.map (fun e => if e.1 == lv then (lv, upsertA e.2 g c) else e)
  else m ++ [(lv, upsertA [] g c)]

/- lines 215-226: level_gender_counts[level][gender] = n, numeric rows only. -/
def level_gender_counts (table : List CategoricalLevel) :
    List (String × List (String × ℚ)) :=
  table.foldl (fun acc row =>
    match numOf row.n with
    | some c => upsertL acc row.level row.gender c
    | Option.none => acc) []

/- lines 229-245: per-level gaps where one gender exceeds 70% of the level. -/
def levelGaps (var : String) (table : List CategoricalLevel) : List Gap :=
  (level_gender_counts table).flatMap (fun e =>
    let total_level := (e.2.map Prod.snd).sum
    if total_level = 0 then []
    else e.2.filterMap (fun gc =>
      let pct := gc.2 / total_level * 100
      if 70 < pct then some (Gap.levelRep var e.1 gc.1 pct) else Option.none))

/- lines 193-207: overall representation imbalance where pct > 60. -/
def overallGaps (by_gender : List GenderRow) : List Gap :=
  by_gender.filterMap (fun gi =>
    match numOf gi.n, numOf gi.pct with
    | some _, some pct =>
      if 60 < pct then some (Gap.imbalance gi.gender pct) else Option.none
    | _, _ => Option.none)

def assess_representation_gaps (by_gender : List GenderRow)
    (categorical : List CatResult) : List Gap :=
  if totalN by_gender = 0 then []
  else
    overallGaps by_gender ++
      categorical.flatMap (fun vr => levelGaps vr.var vr.table)

/- Concrete data: one gender group with 3 observations (below threshold 7). -/
def dfThreeF : List CRow :=
  [⟨some "female", some 1, Option.none⟩, ⟨some "female", some 2, Option.none⟩,
   ⟨some "female", some 4, Option.none⟩]

/- Concrete categorical data: a clean two-level group. -/
def dfCatClean : List KRow :=
  [⟨some "a", some "female"⟩, ⟨some "a", some "female"⟩,
   ⟨some "b", some "female"⟩, ⟨some "b", some "female"⟩]

/- Concrete categorical data: a gender group with missing variable values. -/
def dfCatMissing : List KRow :=
  [⟨some "a", some "female"⟩, ⟨some "a", some "female"⟩, ⟨some "a", some "female"⟩,
   ⟨some "b", some "female"⟩, ⟨some "b", some "female"⟩, ⟨some "b", some "female"⟩,
   ⟨Option.none, some "female"⟩, ⟨Option.none, some "female"⟩]

/- Concrete data: a perfectly balanced sample with a fully gendered level. -/
def genderColBalanced : List (Option String) :=
  [some "female", some "female", some "male", some "male"]

def dfDept : List KRow :=
  [⟨some "x", some "female"⟩, ⟨some "x", some "female"⟩,
   ⟨some "y", some "male"⟩, ⟨some "y", some "male"⟩]

/- A helper: pyRound of 0 is 0. -/
theorem roundHalfEven_zero : roundHalfEven 0 = 0 := by
  simp [roundHalfEven]

theorem pyRound_zero (nd : ℕ) : pyRound nd 0 = 0 := by
  simp [pyRound, roundHalfEven_zero]

/-- C10: every GenderSummary row produced by `summarize_by_gender` has
`missing_pct = 0`.  The group for a category is selected by equality with that
(non-null) category string, so the group can never contain a null gender value
and the per-group null count is always zero, for every input column. -/
theorem summarize_by_gender_missing_pct_zero
    (genderColumn : List (Option String)) (categories_order : List String)
    (s : GenderSummary) (hs : s ∈ summarize_by_gender genderColumn categories_order) :
    s.missing_pct = 0 := by
  unfold summarize_by_gender at hs
  simp only [List.mem_filterMap] at hs
  obtain ⟨gender, _, hsome⟩ := hs
  by_cases hmem : some gender ∈ genderColumn
  · simp only [hmem, if_true, Option.some.injEq] at hsome
    set gd := genderColumn.filter (fun v => v == some gender) with hgd
    have hnone : gd.filter (fun v => v == (Option.none : Option String)) = [] := by
      apply List.filter_eq_nil_iff.mpr
      intro a ha
      have hmem2 := List.of_mem_filter ha
      have : a = some gender := by simpa using hmem2
      simp [this]
    by_cases hn : 0 < gd.length
    · rw [← hsome]
      simp only [hn, if_true, hnone]
      simp [pyRound_zero]
    · rw [← hsome]
      simp only [hn, if_false]
      simp [pyRound_zero]
  · simp [hmem] at hsome

/-- C10 witness: the theorem applied at a concrete gender column. -/
theorem summarize_by_gender_missing_pct_zero_witness :
    (⟨"female", 2, 100, 0⟩ : GenderSummary).missing_pct = 0 := by
  have heval : summarize_by_gender [some "female", some "female"] ["female"] =
      [⟨"female", 2, 100, 0⟩] := by
    simp [summarize_by_gender, pyRound, roundHalfEven]
    norm_num
  have h : (⟨"female", 2, 100, 0⟩ : GenderSummary) ∈
      summarize_by_gender [some "female", some "female"] ["female"] := by
    rw [heval]; exact List.mem_singleton.mpr rfl
  exact summarize_by_gender_missing_pct_zero _ _ _ h

/- Error-branch dictionaries of the _run_* wrappers all carry NaN p/statistic. -/
theorem run_welch_ttest_error {orc : StatOracle} {a b : List ℚ} {e : String}
    (h : orc.ttest_ind a b = .error e) :
    run_welch_ttest orc a b =
      { statistic := some .nan, p := some .nan, dfree := some .none,
        assumptions_met := some false, note := some ("Error in t-test: " ++ e) } := by
  simp [run_welch_ttest, h]

theorem run_mann_whitney_error {orc : StatOracle} {a b : List ℚ} {e : String}
    (h : orc.mannwhitneyu a b = .error e) :
    run_mann_whitney orc a b =
      { statistic := some .nan, p := some .nan, dfree := some .none,
        assumptions_met := some false, note := some ("Error in Mann-Whitney test: " ++ e) } := by
  simp [run_mann_whitney, h]

theorem run_welch_anova_error {orc : StatOracle} {gs : List (List ℚ)} {e : String}
    (h : orc.welch_anova gs = .error e) :
    run_welch_anova orc gs =
      { statistic := some .nan, p := some .nan, dfree := some .none,
        assumptions_met := some false, note := some ("Error in Welch ANOVA: " ++ e) } := by
  simp [run_welch_anova, h]

theorem run_kruskal_wallis_error {orc : StatOracle} {gs : List (List ℚ)} {e : String}
    (h : orc.kruskal gs = .error e) :
    run_kruskal_wallis orc gs =
      { statistic := some .nan, p := some .nan, dfree := some .none,
        assumptions_met := some false, note := some ("Error in Kruskal-Wallis test: " ++ e) } := by
  simp [run_kruskal_wallis, h]

theorem run_chi_square_error {orc : StatOracle} {t : CTable} {w : Bool} {e : String}
    (h : orc.chi2_contingency t.counts = .error e) :
    run_chi_square orc t w =
      { statistic := some .nan, p := some .nan, dfree := some .none,
        assumptions_met := some false, note := some ("Error in chi-square test: " ++ e) } := by
  simp [run_chi_square, h]

theorem run_fisher_exact_error {orc : StatOracle} {t : CTable} {e : String}
    (h2 : (t.rowLabels.length == 2 && t.colLabels.length == 2) = true)
    (h : orc.fisher_exact t.counts = .error e) :
    run_fisher_exact orc t =
      { statistic := some .nan, p := some .nan, dfree := some .none,
        assumptions_met := some false, note := some ("Error in Fisher\x27s exact test: " ++ e) } := by
  simp only [run_fisher_exact, h2, Bool.not_true, Bool.false_eq_true, if_false, h]

/- A TestResult built from a dictionary with NaN p and statistic carries "N/A" twice. -/
theorem mkTestResult_nan {name : String} {d : TestDict}
    (hp : d.p = some .nan) (hs : d.statistic = some .nan) :
    (mkTestResult name d).p = .str "N/A" ∧ (mkTestResult name d).statistic = .str "N/A" := by
  simp [mkTestResult, sentinelize, hp, hs]

/-- C1 (counterexample): with a single non-empty gender group the engine
returns a tagged "insufficient_data" TestResult, but its p-value and
statistic fields are the numeric 0.0 defaults of dict.get (the selector's
insufficient-data dictionary has no "p"/"statistic" keys), not the
sentinel "N/A". -/
theorem analyze_insufficient_not_sentinel :
    (analyzeContinuousTest constOracle dfOneGroup "outcome" ["female", "male"] []).name =
      "insufficient_data" ∧
    (analyzeContinuousTest constOracle dfOneGroup "outcome" ["female", "male"] []).p =
      .num 0 ∧
    (analyzeContinuousTest constOracle dfOneGroup "outcome" ["female", "male"] []).p ≠
      .str "N/A" ∧
    (analyzeContinuousTest constOracle dfOneGroup "outcome" ["female", "male"] []).statistic ≠
      .str "N/A" := by
  refine ⟨rfl, rfl, ?_, ?_⟩ <;> decide


/-- C1 (amended): a numerical failure of the executed (caught) statistical
routine yields a tagged TestResult whose p-value and statistic carry the
"N/A" sentinel, and an insufficient-data outcome (fewer than 2 non-empty
groups, or a table with fewer than 2 rows or columns after restriction)
yields a TestResult tagged "insufficient_data" whose p-value and statistic
are the numeric default 0.0 (the selector dictionaries have no p/statistic
keys) - but the engine does not always avoid raising: when the restricted
contingency table has at least 2 rows and 2 columns and a zero expected
cell (a level observed only among excluded gender categories), the
uncaught chi2_contingency call at test_select.py line 98 raises ValueError
and no TestResult is produced at all. -/
theorem analyze_test_result_sentinels (orc : StatOracle) (cdf : List CRow) (kdf : List KRow)
    (var : String) (order : List String) (nts : List NormalityTest) :
    ((contGroups cdf (order.map strLower)).length < 2 →
      analyzeContinuousTest orc cdf var order nts =
        ⟨"insufficient_data", .num 0, .num 0, Option.none, true,
          some "Less than 2 groups with data"⟩) ∧
    (∀ e, contExecutedCall orc cdf var order nts = .error e →
      (analyzeContinuousTest orc cdf var order nts).p = .str "N/A" ∧
      (analyzeContinuousTest orc cdf var order nts).statistic = .str "N/A") ∧
    (((crosstab_restricted kdf (order.map strLower)).rowLabels.length < 2 ∨
      (crosstab_restricted kdf (order.map strLower)).colLabels.length < 2) →
      analyzeCategoricalTest orc kdf order =
        .ok ⟨"insufficient_data", .num 0, .num 0, Option.none, true,
          some "Insufficient data for contingency table"⟩) ∧
    (expectedHasZero (crosstab_restricted kdf (order.map strLower)) = false →
      ∀ e, catExecutedCall orc kdf order = .error e →
      (analyzeCategoricalTest orc kdf order).map (fun r => r.p) = .ok (.str "N/A") ∧
      (analyzeCategoricalTest orc kdf order).map (fun r => r.statistic) =
        .ok (.str "N/A")) ∧
    (¬ ((crosstab_restricted kdf (order.map strLower)).rowLabels.length < 2 ∨
        (crosstab_restricted kdf (order.map strLower)).colLabels.length < 2) →
      expectedHasZero (crosstab_restricted kdf (order.map strLower)) = true →
      analyzeCategoricalTest orc kdf order =
        .error "ValueError: The internally computed table of expected frequencies has a zero element") := by
  refine ⟨?_, ?_, ?_, ?_, ?_⟩
  · intro h
    cases hG : contGroups cdf (List.map strLower order) with
    | nil =>
      simp only [analyzeContinuousTest, select_continuous_test, hG]
      rfl
    | cons g1 tl =>
      cases tl with
      | nil =>
        simp only [analyzeContinuousTest, select_continuous_test, hG]
        rfl
      | cons g2 rest =>
        rw [hG] at h
        simp only [List.length_cons] at h
        omega
  · intro e he
    simp only [contExecutedCall] at he
    simp only [analyzeContinuousTest, select_continuous_test]
    cases hG : contGroups cdf (List.map strLower order) with
    | nil => rw [hG] at he; exact absurd he (by simp)
    | cons g1 tl =>
      cases tl with
      | nil => rw [hG] at he; exact absurd he (by simp)
      | cons g2 rest =>
        rw [hG] at he
        simp only [hG]
        cases hrest : rest.isEmpty <;> cases hn : normalGroups (strLower var) nts <;>
          simp only [hrest, hn, Bool.false_eq_true, if_false, if_true, ite_true, ite_false,
            Bool.true_eq_false, reduceIte] at he ⊢
        · cases ho : orc.kruskal (List.map Prod.snd (g1 :: g2 :: rest)) with
          | ok v => rw [ho] at he; exact absurd he (by simp [Except.map])
          | error e2 =>
            rw [ho] at he
            simp only [Except.map, Except.error.injEq] at he
            subst he
            exact mkTestResult_nan (d := run_kruskal_wallis orc (List.map Prod.snd (g1 :: g2 :: rest)))
              (by rw [run_kruskal_wallis_error ho]) (by rw [run_kruskal_wallis_error ho])
        · cases ho : orc.welch_anova (List.map Prod.snd (g1 :: g2 :: rest)) with
          | ok v => rw [ho] at he; exact absurd he (by simp [Except.map])
          | error e2 =>
            rw [ho] at he
            simp only [Except.map, Except.error.injEq] at he
            subst he
            exact mkTestResult_nan (d := run_welch_anova orc (List.map Prod.snd (g1 :: g2 :: rest)))
              (by rw [run_welch_anova_error ho]) (by rw [run_welch_anova_error ho])
        · cases ho : orc.mannwhitneyu g1.2 g2.2 with
          | ok v => rw [ho] at he; exact absurd he (by simp [Except.map])
          | error e2 =>
            rw [ho] at he
            simp only [Except.map, Except.error.injEq] at he
            subst he
            exact mkTestResult_nan (d := run_mann_whitney orc g1.2 g2.2)
              (by rw [run_mann_whitney_error ho]) (by rw [run_mann_whitney_error ho])
        · cases ho : orc.ttest_ind g1.2 g2.2 with
          | ok v => rw [ho] at he; exact absurd he (by simp [Except.map])
          | error e2 =>
            rw [ho] at he
            simp only [Except.map, Except.error.injEq] at he
            subst he
            exact mkTestResult_nan (d := run_welch_ttest orc g1.2 g2.2)
              (by rw [run_welch_ttest_error ho]) (by rw [run_welch_ttest_error ho])
  · intro h
    have hlt : (decide ((crosstab_restricted kdf (List.map strLower order)).rowLabels.length < 2) ||
        decide ((crosstab_restricted kdf (List.map strLower order)).colLabels.length < 2)) = true := by
      rcases h with h | h <;> simp [h]
    simp only [analyzeCategoricalTest, select_categorical_test, hlt, if_true, Except.map]
    rfl
  · intro hz e he
    simp only [catExecutedCall, hz, Bool.false_eq_true, if_false] at he
    simp only [analyzeCategoricalTest, select_categorical_test, hz, Bool.false_eq_true, if_false]
    cases hsh : (decide ((crosstab_restricted kdf (List.map strLower order)).rowLabels.length < 2) ||
        decide ((crosstab_restricted kdf (List.map strLower order)).colLabels.length < 2)) with
    | true => rw [hsh] at he; simp only [if_true] at he; exact absurd he (by simp)
    | false =>
      rw [hsh] at he
      simp only [hsh, Bool.false_eq_true, if_false] at he ⊢
      by_cases hexp : minExpected (crosstab_restricted kdf (List.map strLower order)) < 5
      · rw [if_pos hexp] at he
        rw [if_pos hexp]
        cases h22 : ((crosstab_restricted kdf (List.map strLower order)).rowLabels.length == 2 &&
            (crosstab_restricted kdf (List.map strLower order)).colLabels.length == 2) with
        | true =>
          rw [h22] at he
          simp only [h22, if_true] at he ⊢
          cases ho : orc.fisher_exact (crosstab_restricted kdf (List.map strLower order)).counts with
          | ok v => rw [ho] at he; exact absurd he (by simp [Except.map])
          | error e2 =>
            rw [ho] at he
            simp only [Except.map, Except.error.injEq] at he
            subst he
            have hnan := @mkTestResult_nan "fisher_exact"
              (run_fisher_exact orc (crosstab_restricted kdf (List.map strLower order)))
              (by rw [run_fisher_exact_error h22 ho]) (by rw [run_fisher_exact_error h22 ho])
            constructor <;> simp [Except.map, hnan.1, hnan.2]
        | false =>
          rw [h22] at he
          simp only [h22, Bool.false_eq_true, if_false] at he ⊢
          cases ho : orc.chi2_contingency (crosstab_restricted kdf (List.map strLower order)).counts with
          | ok v => rw [ho] at he; exact absurd he (by simp [Except.map])
          | error e2 =>
            rw [ho] at he
            simp only [Except.map, Except.error.injEq] at he
            subst he
            have hnan := @mkTestResult_nan "chi_square"
              (run_chi_square orc (crosstab_restricted kdf (List.map strLower order)) true)
              (by rw [run_chi_square_error ho]) (by rw [run_chi_square_error ho])
            constructor <;> simp [Except.map, hnan.1, hnan.2]
      · rw [if_neg hexp] at he
        rw [if_neg hexp]
        cases ho : orc.chi2_contingency (crosstab_restricted kdf (List.map strLower order)).counts with
        | ok v => rw [ho] at he; exact absurd he (by simp [Except.map])
        | error e2 =>
          rw [ho] at he
          simp only [Except.map, Except.error.injEq] at he
          subst he
          have hnan := @mkTestResult_nan "chi_square"
            (run_chi_square orc (crosstab_restricted kdf (List.map strLower order)) false)
            (by rw [run_chi_square_error ho]) (by rw [run_chi_square_error ho])
          constructor <;> simp [Except.map, hnan.1, hnan.2]
  · intro hsh hz
    have hshb : (decide ((crosstab_restricted kdf (List.map strLower order)).rowLabels.length < 2) ||
        decide ((crosstab_restricted kdf (List.map strLower order)).colLabels.length < 2)) = false := by
      rcases not_or.mp hsh with ⟨h1, h2⟩
      simp [h1, h2]
    simp only [analyzeCategoricalTest, select_categorical_test, hshb, Bool.false_eq_true,
      if_false, hz, if_true, Except.map]

/-- C1 witness: at a concrete two-group dataset whose statistical call
raises, the TestResult carries "N/A" in both fields. -/
theorem analyze_test_result_sentinels_witness :
    (analyzeContinuousTest (failOracle "zero variance") dfTwoGroups "outcome"
      ["female", "male"] []).p = .str "N/A" ∧
    (analyzeContinuousTest (failOracle "zero variance") dfTwoGroups "outcome"
      ["female", "male"] []).statistic = .str "N/A" :=
  (analyze_test_result_sentinels (failOracle "zero variance") dfTwoGroups []
    "outcome" ["female", "male"] []).2.1 "zero variance" rfl

/- Bridge: the boolean normality gate as a declarative statement. -/
theorem normalMatch_iff (o : Option ℚ) :
    (match o with | some p => decide (p < 5/100) | Option.none => false) = true ↔
      ∃ p, o = some p ∧ p < 5/100 := by
  cases o <;> simp

theorem normalGroups_iff (var : String) (nts : List NormalityTest) :
    normalGroups var nts = true ↔
      ¬ ∃ t ∈ nts, t.var = var ∧ ∃ p, t.p = some p ∧ p < 5/100 := by
  unfold normalGroups
  rw [Bool.not_eq_true']
  rw [← Bool.not_eq_true]
  constructor
  · intro h hex
    apply h
    rw [List.any_eq_true]
    obtain ⟨t, ht, hvar, hp⟩ := hex
    exact ⟨t, ht, by rw [Bool.and_eq_true, beq_iff_eq, normalMatch_iff]; exact ⟨hvar, hp⟩⟩
  · intro h hb
    apply h
    rw [List.any_eq_true] at hb
    obtain ⟨t, ht, hc⟩ := hb
    rw [Bool.and_eq_true, beq_iff_eq, normalMatch_iff] at hc
    exact ⟨t, ht, hc.1, hc.2⟩

/-- C2 (counterexample): the categorical decision tree is not total.  At a
reachable input - a level observed only among gender categories excluded by
the column restriction, leaving an all-zero row - the restricted table is
3x2 with minimum expected count 0 < 5, yet no test is selected: the
uncaught chi2_contingency call at test_select.py line 98 raises ValueError
on the zero expected cell before any branch is taken. -/
theorem categorical_selector_raises_on_zero_expected :
    2 ≤ (crosstab_restricted dfZeroRow (["female", "male"].map strLower)).rowLabels.length ∧
    2 ≤ (crosstab_restricted dfZeroRow (["female", "male"].map strLower)).colLabels.length ∧
    minExpected (crosstab_restricted dfZeroRow (["female", "male"].map strLower)) < 5 ∧
    select_categorical_test constOracle dfZeroRow ["female", "male"] =
      .error "ValueError: The internally computed table of expected frequencies has a zero element" := by
  have hct : crosstab_restricted dfZeroRow (List.map strLower ["female", "male"]) =
      ⟨["a", "b", "c"], ["female", "male"], [[1, 1], [1, 1], [0, 0]]⟩ := by decide
  have hz : expectedHasZero (⟨["a", "b", "c"], ["female", "male"],
      [[1, 1], [1, 1], [0, 0]]⟩ : CTable) = true := by
    simp [expectedHasZero, expectedFreqs, rowSums, colSums, grandTotal, List.range_succ,
      beq_iff_eq]
  have hct2 : crosstab_restricted dfZeroRow [strLower "female", strLower "male"] =
      ⟨["a", "b", "c"], ["female", "male"], [[1, 1], [1, 1], [0, 0]]⟩ := hct
  refine ⟨by rw [hct]; decide, by rw [hct]; decide, ?_, ?_⟩
  · rw [hct]
    simp [minExpected, expectedFreqs, rowSums, colSums, grandTotal, List.range_succ]
  · simp [select_categorical_test, hct2, hz]

/-- C2 (amended): the test-selection decision tree, on the inputs where the
selector completes.  Continuous: with exactly 2 non-empty gender groups,
Welch t-test when no computed normality test for the variable has p < 0.05,
Mann-Whitney U otherwise; with 3 or more groups, Welch ANOVA versus
Kruskal-Wallis under the same gate.  Categorical: provided every expected
frequency of the restricted table is nonzero (otherwise the uncaught
chi2_contingency call at line 98 raises), a table of at least 2x2 gets
Fisher exact when it is exactly 2x2 with minimum expected count < 5, and
chi-square otherwise, its note carrying the low-power caveat exactly when
some expected count is < 5 (whenever the chi-square routine itself
succeeds). -/
theorem test_selector_decision_tree (orc : StatOracle) (cdf : List CRow) (kdf : List KRow)
    (var : String) (order : List String) (nts : List NormalityTest) :
    ((contGroups cdf (order.map strLower)).length = 2 →
      (¬ ∃ t ∈ nts, t.var = strLower var ∧ ∃ p, t.p = some p ∧ p < 5/100) →
      (select_continuous_test orc cdf var order nts).1 = "welch_ttest") ∧
    ((contGroups cdf (order.map strLower)).length = 2 →
      (∃ t ∈ nts, t.var = strLower var ∧ ∃ p, t.p = some p ∧ p < 5/100) →
      (select_continuous_test orc cdf var order nts).1 = "mann_whitney") ∧
    (3 ≤ (contGroups cdf (order.map strLower)).length →
      (¬ ∃ t ∈ nts, t.var = strLower var ∧ ∃ p, t.p = some p ∧ p < 5/100) →
      (select_continuous_test orc cdf var order nts).1 = "welch_anova") ∧
    (3 ≤ (contGroups cdf (order.map strLower)).length →
      (∃ t ∈ nts, t.var = strLower var ∧ ∃ p, t.p = some p ∧ p < 5/100) →
      (select_continuous_test orc cdf var order nts).1 = "kruskal_wallis") ∧
    ((crosstab_restricted kdf (order.map strLower)).rowLabels.length = 2 →
      (crosstab_restricted kdf (order.map strLower)).colLabels.length = 2 →
      expectedHasZero (crosstab_restricted kdf (order.map strLower)) = false →
      minExpected (crosstab_restricted kdf (order.map strLower)) < 5 →
      (select_categorical_test orc kdf order).map Prod.fst = .ok "fisher_exact") ∧
    (2 ≤ (crosstab_restricted kdf (order.map strLower)).rowLabels.length →
      2 ≤ (crosstab_restricted kdf (order.map strLower)).colLabels.length →
      expectedHasZero (crosstab_restricted kdf (order.map strLower)) = false →
      minExpected (crosstab_restricted kdf (order.map strLower)) < 5 →
      ¬ ((crosstab_restricted kdf (order.map strLower)).rowLabels.length = 2 ∧
         (crosstab_restricted kdf (order.map strLower)).colLabels.length = 2) →
      (select_categorical_test orc kdf order).map Prod.fst = .ok "chi_square" ∧
      (∀ s p, orc.chi2_contingency (crosstab_restricted kdf (order.map strLower)).counts =
          .ok (s, p) →
        (select_categorical_test orc kdf order).map (fun r => r.2.note) =
          .ok (some "Chi-square test of independence (some expected frequencies < 5, interpret with caution)"))) ∧
    (2 ≤ (crosstab_restricted kdf (order.map strLower)).rowLabels.length →
      2 ≤ (crosstab_restricted kdf (order.map strLower)).colLabels.length →
      expectedHasZero (crosstab_restricted kdf (order.map strLower)) = false →
      5 ≤ minExpected (crosstab_restricted kdf (order.map strLower)) →
      (select_categorical_test orc kdf order).map Prod.fst = .ok "chi_square" ∧
      (∀ s p, orc.chi2_contingency (crosstab_restricted kdf (order.map strLower)).counts =
          .ok (s, p) →
        (select_categorical_test orc kdf order).map (fun r => r.2.note) =
          .ok (some "Chi-square test of independence"))) := by
  have hnorm := normalGroups_iff (strLower var) nts
  refine ⟨?_, ?_, ?_, ?_, ?_, ?_, ?_⟩
  · intro hlen hpass
    have hn : normalGroups (strLower var) nts = true := hnorm.mpr hpass
    match hG : contGroups cdf (List.map strLower order) with
    | [] => rw [hG] at hlen; simp at hlen
    | [_] => rw [hG] at hlen; simp at hlen
    | g1 :: g2 :: rest =>
      rw [hG] at hlen
      simp only [List.length_cons] at hlen
      have hrest : rest = [] := by
        cases rest with
        | nil => rfl
        | cons a b => simp at hlen
      subst hrest
      simp [select_continuous_test, hG, hn]
  · intro hlen hfail
    have hn : normalGroups (strLower var) nts = false := by
      rw [Bool.eq_false_iff, Ne, hnorm]
      exact fun h => h hfail
    match hG : contGroups cdf (List.map strLower order) with
    | [] => rw [hG] at hlen; simp at hlen
    | [_] => rw [hG] at hlen; simp at hlen
    | g1 :: g2 :: rest =>
      rw [hG] at hlen
      simp only [List.length_cons] at hlen
      have hrest : rest = [] := by
        cases rest with
        | nil => rfl
        | cons a b => simp at hlen
      subst hrest
      simp [select_continuous_test, hG, hn]
  · intro hlen hpass
    have hn : normalGroups (strLower var) nts = true := hnorm.mpr hpass
    match hG : contGroups cdf (List.map strLower order) with
    | [] => rw [hG] at hlen; simp at hlen
    | [_] => rw [hG] at hlen; simp at hlen
    | g1 :: g2 :: rest =>
      rw [hG] at hlen
      simp only [List.length_cons] at hlen
      have hrest : rest.isEmpty = false := by
        cases rest with
        | nil => simp at hlen
        | cons a b => rfl
      simp [select_continuous_test, hG, hn, hrest]
  · intro hlen hfail
    have hn : normalGroups (strLower var) nts = false := by
      rw [Bool.eq_false_iff, Ne, hnorm]
      exact fun h => h hfail
    match hG : contGroups cdf (List.map strLower order) with
    | [] => rw [hG] at hlen; simp at hlen
    | [_] => rw [hG] at hlen; simp at hlen
    | g1 :: g2 :: rest =>
      rw [hG] at hlen
      simp only [List.length_cons] at hlen
      have hrest : rest.isEmpty = false := by
        cases rest with
        | nil => simp at hlen
        | cons a b => rfl
      simp [select_continuous_test, hG, hn, hrest]
  · intro hr hc hz hexp
    simp [select_categorical_test, hr, hc, hz, hexp, Except.map]
  · intro hr hc hz hexp hne
    have h22 : ((crosstab_restricted kdf (List.map strLower order)).rowLabels.length == 2 &&
        (crosstab_restricted kdf (List.map strLower order)).colLabels.length == 2) = false := by
      rw [Bool.and_eq_false_iff]
      by_cases h : (crosstab_restricted kdf (List.map strLower order)).rowLabels.length = 2
      · right
        rw [beq_eq_false_iff_ne]
        exact fun hcc => hne ⟨h, hcc⟩
      · left
        rw [beq_eq_false_iff_ne]
        exact h
    constructor
    · simp [select_categorical_test, h22, hz, hexp, Nat.not_lt.mpr hr, Nat.not_lt.mpr hc,
        Except.map]
    · intro s p ho
      simp [select_categorical_test, h22, hz, hexp, Nat.not_lt.mpr hr, Nat.not_lt.mpr hc,
        run_chi_square, ho, Except.map]
  · intro hr hc hz hexp
    constructor
    · simp [select_categorical_test, Nat.not_lt.mpr hr, Nat.not_lt.mpr hc, hz,
        not_lt.mpr hexp, Except.map]
    · intro s p ho
      simp [select_categorical_test, Nat.not_lt.mpr hr, Nat.not_lt.mpr hc, hz,
        not_lt.mpr hexp, run_chi_square, ho, Except.map]

/-- C2 witness: at concrete data, a two-group normal continuous variable gets
Welch\x27s t-test and a sparse 2x2 table with nonzero expected counts gets
Fisher\x27s exact test. -/
theorem test_selector_decision_tree_witness :
    (select_continuous_test constOracle dfTwoGroups "outcome" ["female", "male"] []).1 =
      "welch_ttest" ∧
    (select_categorical_test constOracle dfTwoByTwo ["female", "male"]).map Prod.fst =
      .ok "fisher_exact" := by
  have h := test_selector_decision_tree constOracle dfTwoGroups dfTwoByTwo "outcome"
    ["female", "male"] []
  have hct : crosstab_restricted dfTwoByTwo (List.map strLower ["female", "male"]) =
      ⟨["a", "b"], ["female", "male"], [[1, 1], [1, 1]]⟩ := by decide
  have hnz : expectedHasZero (crosstab_restricted dfTwoByTwo
      (List.map strLower ["female", "male"])) = false := by
    rw [hct]
    simp [expectedHasZero, expectedFreqs, rowSums, colSums, grandTotal, List.range_succ,
      beq_iff_eq]
  have hmin : minExpected (crosstab_restricted dfTwoByTwo
      (List.map strLower ["female", "male"])) < 5 := by
    rw [hct]
    simp [minExpected, expectedFreqs, rowSums, colSums, grandTotal, List.range_succ]
    norm_num
  exact ⟨h.1 (by decide) (by simp), h.2.2.2.2.1 (by decide) (by decide) hnz hmin⟩

/- suffMin preserves length. -/
theorem suffMin_length (l : List ℚ) : (suffMin l).length = l.length := by
  match l with
  | [] => rfl
  | [x] => rfl
  | x :: y :: rest =>
    have ih := suffMin_length (y :: rest)
    simp only [suffMin]
    cases h : suffMin (y :: rest) with
    | nil => rw [h] at ih; simp at ih
    | cons m ms => rw [h] at ih; simp at ih ⊢; omega

theorem suffMin_cons_cons (x y : ℚ) (rest : List ℚ) :
    suffMin (x :: y :: rest) =
      min x ((suffMin (y :: rest)).getD 0 0) :: suffMin (y :: rest) := by
  simp only [suffMin]
  cases h : suffMin (y :: rest) with
  | nil =>
    have hl := suffMin_length (y :: rest)
    rw [h] at hl
    simp at hl
  | cons m ms => simp

/- Each suffix minimum is a lower bound of its suffix. -/
theorem suffMin_le (l : List ℚ) (i j : ℕ) (hij : i ≤ j) (hj : j < l.length) :
    (suffMin l).getD i 0 ≤ l.getD j 0 := by
  match l with
  | [] => simp at hj
  | [x] =>
    have hj0 : j = 0 := by simpa using hj
    have hi0 : i = 0 := by omega
    subst hj0; subst hi0
    simp [suffMin]
  | x :: y :: rest =>
    rw [suffMin_cons_cons]
    cases i with
    | zero =>
      cases j with
      | zero =>
        simp only [List.getD_cons_zero]
        exact min_le_left _ _
      | succ j2 =>
        have ih := suffMin_le (y :: rest) 0 j2 (Nat.zero_le _) (by simpa using hj)
        simp only [List.getD_cons_zero, List.getD_cons_succ]
        exact le_trans (min_le_right _ _) ih
    | succ i2 =>
      cases j with
      | zero => omega
      | succ j2 =>
        have ih := suffMin_le (y :: rest) i2 j2 (by omega) (by simpa using hj)
        simpa using ih

/- Each suffix minimum is attained inside its suffix. -/
theorem suffMin_attained (l : List ℚ) (i : ℕ) (hi : i < l.length) :
    ∃ j, i ≤ j ∧ j < l.length ∧ (suffMin l).getD i 0 = l.getD j 0 := by
  match l with
  | [] => simp at hi
  | [x] =>
    have hi0 : i = 0 := by simpa using hi
    subst hi0
    exact ⟨0, le_rfl, by simp, by simp [suffMin]⟩
  | x :: y :: rest =>
    rw [suffMin_cons_cons]
    cases i with
    | zero =>
      rcases min_cases x ((suffMin (y :: rest)).getD 0 0) with ⟨heq, _⟩ | ⟨heq, _⟩
      · exact ⟨0, le_rfl, by simp, by simpa using heq⟩
      · obtain ⟨j, _, hjlen, hjeq⟩ := suffMin_attained (y :: rest) 0 (by simp)
        refine ⟨j + 1, by omega, by simpa using hjlen, ?_⟩
        simpa using heq.trans hjeq
    | succ i2 =>
      obtain ⟨j, hj0, hjlen, hjeq⟩ := suffMin_attained (y :: rest) i2 (by simpa using hi)
      refine ⟨j + 1, by omega, by simpa using hjlen, ?_⟩
      simpa using hjeq

/- Suffix minima are non-decreasing in the start index. -/
theorem suffMin_mono (l : List ℚ) (i i' : ℕ) (h : i ≤ i') (hi' : i' < l.length) :
    (suffMin l).getD i 0 ≤ (suffMin l).getD i' 0 := by
  match l with
  | [] => simp at hi'
  | [x] =>
    have h0 : i' = 0 := by simpa using hi'
    have h1 : i = 0 := by omega
    subst h0; subst h1
    exact le_rfl
  | x :: y :: rest =>
    rw [suffMin_cons_cons]
    cases i with
    | zero =>
      cases i' with
      | zero => exact le_rfl
      | succ i2 =>
        have ih := suffMin_mono (y :: rest) 0 i2 (Nat.zero_le _) (by simpa using hi')
        simp only [List.getD_cons_zero, List.getD_cons_succ]
        exact le_trans (min_le_right _ _) ih
    | succ i2 =>
      cases i' with
      | zero => omega
      | succ i2' =>
        have ih := suffMin_mono (y :: rest) i2 i2' (by omega) (by simpa using hi')
        simpa using ih

/- argsortIdx is a permutation of range, sorted by the p-values it indexes. -/
theorem argsortIdx_perm (p : List ℚ) : (argsortIdx p).Perm (List.range p.length) :=
  List.mergeSort_perm _ _

theorem argsortIdx_length (p : List ℚ) : (argsortIdx p).length = p.length := by
  rw [(argsortIdx_perm p).length_eq, List.length_range]

theorem argsortIdx_mem (p : List ℚ) (k : ℕ) : k ∈ argsortIdx p ↔ k < p.length := by
  rw [(argsortIdx_perm p).mem_iff, List.mem_range]

theorem argsortIdx_sorted (p : List ℚ) :
    List.Pairwise (fun i j => p.getD i 0 ≤ p.getD j 0) (argsortIdx p) := by
  have h := @List.sorted_mergeSort ℕ (fun i j => decide (p.getD i 0 ≤ p.getD j 0))
    (by intro a b c hab hbc; simp at hab hbc ⊢; exact le_trans hab hbc)
    (by intro a b; simp [le_total])
    (List.range p.length)
  exact h.imp (by intro a b hab; simpa using hab)

theorem argsortIdx_getD_lt (p : List ℚ) (t : ℕ) (ht : t < p.length) :
    (argsortIdx p).getD t 0 < p.length := by
  have hlen : t < (argsortIdx p).length := by rw [argsortIdx_length]; exact ht
  rw [List.getD_eq_getElem _ _ hlen]
  exact (argsortIdx_mem p _).mp (List.getElem_mem hlen)

theorem indexOf_argsort_lt (p : List ℚ) (k : ℕ) (hk : k < p.length) :
    (argsortIdx p).indexOf k < (argsortIdx p).length :=
  List.indexOf_lt_length.mpr ((argsortIdx_mem p k).mpr hk)

theorem argsort_getD_indexOf (p : List ℚ) (k : ℕ) (hk : k < p.length) :
    (argsortIdx p).getD ((argsortIdx p).indexOf k) 0 = k := by
  rw [List.getD_eq_getElem _ _ (indexOf_argsort_lt p k hk)]
  exact List.getElem_indexOf _

/- The sorted p-value list: entries, membership, monotonicity. -/
theorem bhSortedP_length (p : List ℚ) : (bhSortedP p).length = p.length := by
  rw [bhSortedP, List.length_map, argsortIdx_length]

theorem bhSortedP_getD (p : List ℚ) (t : ℕ) (ht : t < p.length) :
    (bhSortedP p).getD t 0 = p.getD ((argsortIdx p).getD t 0) 0 := by
  have h1 : t < (argsortIdx p).length := by rw [argsortIdx_length]; exact ht
  rw [bhSortedP, List.getD_eq_getElem _ _ (by rw [List.length_map]; exact h1),
    List.getElem_map, List.getD_eq_getElem _ _ h1]

theorem bhSortedP_getD_mem (p : List ℚ) (t : ℕ) (ht : t < p.length) :
    (bhSortedP p).getD t 0 ∈ p := by
  rw [bhSortedP_getD p t ht]
  have hlt := argsortIdx_getD_lt p t ht
  rw [List.getD_eq_getElem _ _ hlt]
  exact List.getElem_mem hlt

theorem bhSortedP_getD_indexOf (p : List ℚ) (k : ℕ) (hk : k < p.length) :
    (bhSortedP p).getD ((argsortIdx p).indexOf k) 0 = p.getD k 0 := by
  have h1 : (argsortIdx p).indexOf k < p.length := by
    have := indexOf_argsort_lt p k hk
    rwa [argsortIdx_length] at this
  rw [bhSortedP_getD p _ h1, argsort_getD_indexOf p k hk]

theorem bhSortedP_mono (p : List ℚ) (t1 t2 : ℕ) (h : t1 ≤ t2) (h2 : t2 < p.length) :
    (bhSortedP p).getD t1 0 ≤ (bhSortedP p).getD t2 0 := by
  rcases Nat.eq_or_lt_of_le h with rfl | hlt
  · exact le_rfl
  · have h1 : t1 < p.length := lt_trans hlt h2
    rw [bhSortedP_getD p t1 h1, bhSortedP_getD p t2 h2]
    have hp := List.pairwise_iff_get.mp (argsortIdx_sorted p)
    have hl := argsortIdx_length p
    have hg := hp ⟨t1, by omega⟩ ⟨t2, by omega⟩ (by simpa using hlt)
    have e1 : (argsortIdx p).getD t1 0 = (argsortIdx p).get ⟨t1, by omega⟩ := by
      rw [List.getD_eq_getElem _ _ (by omega : t1 < (argsortIdx p).length)]
      simp
    have e2 : (argsortIdx p).getD t2 0 = (argsortIdx p).get ⟨t2, by omega⟩ := by
      rw [List.getD_eq_getElem _ _ (by omega : t2 < (argsortIdx p).length)]
      simp
    rw [e1, e2]
    exact hg

/- The ranked raw corrections sorted_p[i] * m / (i+1). -/
theorem bhRanked_length (s : List ℚ) (m : ℕ) : (bhRanked s m).length = s.length := by
  rw [bhRanked, List.length_map, List.length_range]

theorem bhRanked_getD (s : List ℚ) (m i : ℕ) (hi : i < s.length) :
    (bhRanked s m).getD i 0 = s.getD i 0 * m / (i + 1) := by
  rw [bhRanked, List.getD_eq_getElem _ _ (by rw [List.length_map, List.length_range]; exact hi),
    List.getElem_map, List.getElem_range]

theorem bhAdj_getD (p : List ℚ) (t : ℕ) (ht : t < p.length) :
    (bhAdj p).getD t 0 =
      min ((suffMin (bhRanked (bhSortedP p) p.length)).getD t 0) 1 := by
  have hrl : (suffMin (bhRanked (bhSortedP p) p.length)).length = p.length := by
    rw [suffMin_length, bhRanked_length, bhSortedP_length]
  rw [bhAdj, List.getD_eq_getElem _ _ (by rw [List.length_map, hrl]; exact ht),
    List.getElem_map, List.getD_eq_getElem _ _ (by rw [hrl]; exact ht)]

theorem bh_getD (p : List ℚ) (k : ℕ) (hk : k < p.length) :
    (_benjamini_hochberg p).getD k 0 = (bhAdj p).getD ((argsortIdx p).indexOf k) 0 := by
  rw [_benjamini_hochberg,
    List.getD_eq_getElem _ _ (by rw [List.length_map, List.length_range]; exact hk),
    List.getElem_map, List.getElem_range]

theorem benjamini_hochberg_length (p : List ℚ) :
    (_benjamini_hochberg p).length = p.length := by
  rw [_benjamini_hochberg, List.length_map, List.length_range]

/- The raw ranked correction dominates its sorted p-value (m/(rank) >= 1). -/
theorem bhRanked_ge_sorted (p : List ℚ) (hp : ∀ x ∈ p, 0 ≤ x ∧ x ≤ 1)
    (j : ℕ) (hj : j < p.length) :
    (bhSortedP p).getD j 0 ≤ (bhRanked (bhSortedP p) p.length).getD j 0 := by
  have hsl : j < (bhSortedP p).length := by rw [bhSortedP_length]; exact hj
  rw [bhRanked_getD _ _ _ hsl, mul_div_assoc]
  have hx0 : 0 ≤ (bhSortedP p).getD j 0 := (hp _ (bhSortedP_getD_mem p j hj)).1
  apply le_mul_of_one_le_right hx0
  rw [le_div_iff₀ (by positivity)]
  rw [one_mul]
  exact_mod_cast Nat.succ_le_of_lt hj

theorem bhRanked_nonneg (p : List ℚ) (hp : ∀ x ∈ p, 0 ≤ x ∧ x ≤ 1)
    (j : ℕ) (hj : j < p.length) :
    0 ≤ (bhRanked (bhSortedP p) p.length).getD j 0 := by
  have hsl : j < (bhSortedP p).length := by rw [bhSortedP_length]; exact hj
  rw [bhRanked_getD _ _ _ hsl]
  have hx0 : 0 ≤ (bhSortedP p).getD j 0 := (hp _ (bhSortedP_getD_mem p j hj)).1
  positivity

/- Suffix minimum of the ranked corrections dominates the sorted p-value. -/
theorem bhSuffMin_ge_sorted (p : List ℚ) (hp : ∀ x ∈ p, 0 ≤ x ∧ x ≤ 1)
    (t : ℕ) (ht : t < p.length) :
    (bhSortedP p).getD t 0 ≤
      (suffMin (bhRanked (bhSortedP p) p.length)).getD t 0 ∧
    0 ≤ (suffMin (bhRanked (bhSortedP p) p.length)).getD t 0 := by
  have hrl : (bhRanked (bhSortedP p) p.length).length = p.length := by
    rw [bhRanked_length, bhSortedP_length]
  obtain ⟨j, htj, hjlen, hjeq⟩ := suffMin_attained _ t (by rw [hrl]; exact ht)
  rw [hrl] at hjlen
  rw [hjeq]
  constructor
  · exact le_trans (bhSortedP_mono p t j htj hjlen) (bhRanked_ge_sorted p hp j hjlen)
  · exact bhRanked_nonneg p hp j hjlen

/- Monotonicity of the suffix minima across positions holding equal p-values,
   in the direction opposite to the index order. -/
theorem bhSuffMin_tie (p : List ℚ) (hp : ∀ x ∈ p, 0 ≤ x ∧ x ≤ 1)
    (t1 t2 : ℕ) (h21 : t2 < t1) (ht1 : t1 < p.length)
    (hle : (bhSortedP p).getD t1 0 ≤ (bhSortedP p).getD t2 0) :
    (suffMin (bhRanked (bhSortedP p) p.length)).getD t1 0 ≤
      (suffMin (bhRanked (bhSortedP p) p.length)).getD t2 0 := by
  have hrl : (bhRanked (bhSortedP p) p.length).length = p.length := by
    rw [bhRanked_length, bhSortedP_length]
  have ht2 : t2 < p.length := lt_trans h21 ht1
  obtain ⟨j, htj, hjlen, hjeq⟩ := suffMin_attained _ t2 (by rw [hrl]; exact ht2)
  rw [hrl] at hjlen
  rw [hjeq]
  rcases le_or_lt t1 j with hj1 | hj1
  · exact suffMin_le _ t1 j hj1 (by rw [hrl]; exact hjlen)
  · have hveq : (bhSortedP p).getD j 0 = (bhSortedP p).getD t1 0 := by
      have h1 := bhSortedP_mono p t2 j htj hjlen
      have h2 := bhSortedP_mono p j t1 (le_of_lt hj1) ht1
      have h3 := bhSortedP_mono p t2 t1 (le_of_lt h21) ht1
      linarith
    have hsl1 : t1 < (bhSortedP p).length := by rw [bhSortedP_length]; exact ht1
    have hslj : j < (bhSortedP p).length := by rw [bhSortedP_length]; exact hjlen
    have hrj : (bhRanked (bhSortedP p) p.length).getD t1 0 ≤
        (bhRanked (bhSortedP p) p.length).getD j 0 := by
      rw [bhRanked_getD _ _ _ hsl1, bhRanked_getD _ _ _ hslj, hveq]
      have hx0 : 0 ≤ (bhSortedP p).getD t1 0 := (hp _ (bhSortedP_getD_mem p t1 ht1)).1
      rw [div_le_div_iff₀ (by positivity) (by positivity)]
      have hjj : ((j : ℚ) + 1) ≤ ((t1 : ℚ) + 1) := by
        have : (j : ℚ) ≤ (t1 : ℚ) := by exact_mod_cast le_of_lt hj1
        linarith
      have hnum : 0 ≤ (bhSortedP p).getD t1 0 * (p.length : ℚ) := by positivity
      exact mul_le_mul_of_nonneg_left hjj hnum
    exact le_trans (suffMin_le _ t1 t1 le_rfl (by rw [hrl]; exact ht1)) hrj

/-- C4: the Benjamini-Hochberg correction of a list of valid p-values (each
in [0,1]) has the input's length; its entries (matched positionally, i.e. in
the original input order) dominate the raw p-values, lie in [0,1], and are
monotone non-decreasing with respect to the raw p-value order. -/
theorem benjamini_hochberg_properties (p : List ℚ)
    (hp : ∀ x ∈ p, 0 ≤ x ∧ x ≤ 1) :
    (_benjamini_hochberg p).length = p.length ∧
    (∀ k, k < p.length →
      p.getD k 0 ≤ (_benjamini_hochberg p).getD k 0 ∧
      0 ≤ (_benjamini_hochberg p).getD k 0 ∧
      (_benjamini_hochberg p).getD k 0 ≤ 1) ∧
    (∀ k1 k2, k1 < p.length → k2 < p.length →
      p.getD k1 0 ≤ p.getD k2 0 →
      (_benjamini_hochberg p).getD k1 0 ≤ (_benjamini_hochberg p).getD k2 0) := by
  have hidxlen := argsortIdx_length p
  refine ⟨benjamini_hochberg_length p, ?_, ?_⟩
  · intro k hk
    have ht : (argsortIdx p).indexOf k < p.length := by
      have := indexOf_argsort_lt p k hk
      omega
    rw [bh_getD p k hk, bhAdj_getD p _ ht]
    have hcore := bhSuffMin_ge_sorted p hp _ ht
    have hpk : p.getD k 0 ∈ p := by
      rw [List.getD_eq_getElem _ _ hk]
      exact List.getElem_mem hk
    have hpk01 := hp _ hpk
    refine ⟨le_min ?_ hpk01.2, le_min hcore.2 (by norm_num), min_le_right _ _⟩
    calc p.getD k 0 = (bhSortedP p).getD ((argsortIdx p).indexOf k) 0 :=
          (bhSortedP_getD_indexOf p k hk).symm
      _ ≤ _ := hcore.1
  · intro k1 k2 hk1 hk2 hple
    have ht1 : (argsortIdx p).indexOf k1 < p.length := by
      have := indexOf_argsort_lt p k1 hk1
      omega
    have ht2 : (argsortIdx p).indexOf k2 < p.length := by
      have := indexOf_argsort_lt p k2 hk2
      omega
    rw [bh_getD p k1 hk1, bh_getD p k2 hk2, bhAdj_getD p _ ht1, bhAdj_getD p _ ht2]
    rcases le_or_lt ((argsortIdx p).indexOf k1) ((argsortIdx p).indexOf k2) with h12 | h12
    · have hrl : (bhRanked (bhSortedP p) p.length).length = p.length := by
        rw [bhRanked_length, bhSortedP_length]
      exact min_le_min (suffMin_mono _ _ _ h12 (by rw [hrl]; exact ht2)) le_rfl
    · have hle : (bhSortedP p).getD ((argsortIdx p).indexOf k1) 0 ≤
          (bhSortedP p).getD ((argsortIdx p).indexOf k2) 0 := by
        rw [bhSortedP_getD_indexOf p k1 hk1, bhSortedP_getD_indexOf p k2 hk2]
        exact hple
      exact min_le_min (bhSuffMin_tie p hp _ _ h12 ht1 hle) le_rfl

/-- C4 witness: the theorem applied to a concrete family of p-values. -/
theorem benjamini_hochberg_properties_witness :
    (0 : ℚ) ≤ (_benjamini_hochberg [1/100, 1/2, 3/100]).getD 0 0 ∧
    (1/100 : ℚ) ≤ (_benjamini_hochberg [1/100, 1/2, 3/100]).getD 0 0 ∧
    (_benjamini_hochberg [1/100, 1/2, 3/100]).getD 0 0 ≤
      (_benjamini_hochberg [1/100, 1/2, 3/100]).getD 1 0 := by
  have hp : ∀ x ∈ [(1:ℚ)/100, 1/2, 3/100], 0 ≤ x ∧ x ≤ 1 := by
    intro x hx
    simp only [List.mem_cons, List.mem_singleton] at hx
    rcases hx with rfl | rfl | rfl | h
    · constructor <;> norm_num
    · constructor <;> norm_num
    · constructor <;> norm_num
    · simp at h
  have h := benjamini_hochberg_properties [1/100, 1/2, 3/100] hp
  refine ⟨(h.2.1 0 (by norm_num)).2.1, (h.2.1 0 (by norm_num)).1, ?_⟩
  exact h.2.2 0 1 (by norm_num) (by norm_num) (by norm_num)

/-- C5: the claim is right and the code is wrong.  When a family of test
results contains an undefined p-value - which analyze_data stores as the
string sentinel "N/A" (here produced by the pipeline itself from a failing
statistical call) - the FDR stage evaluates np.isnan on that string before
its None-guard and raises TypeError instead of excluding the entry. -/
theorem fdr_raises_on_na_sentinel :
    apply_fdr_to_analysis_results
      [analyzeContinuousTest (failOracle "singular matrix") dfTwoGroups "outcome"
        ["female", "male"] []] [] =
      .error "TypeError: isnan not supported for str" := by
  rfl

/- Concrete DataFrame with one missing numeric cell. -/
def dfMissingAge : DataFrame :=
  ⟨["age", "gender"], [[.num 30, .str "f"], [.nan, .str "m"], [.num 20, .str "f"]]⟩

/-- C6: the claim is right and the code is wrong.  handle_missing_data
returns before the imputation block for every recognised policy (listwise,
pairwise, flag), so a configured mean imputation never runs: under
"pairwise"/"flag" the missing cell survives untouched, under "listwise" the
row is dropped; only an unrecognised policy string would reach the
imputation code (shown last: there the mean 25 is actually filled in). -/
theorem handle_missing_data_imputation_unreachable :
    handle_missing_data dfMissingAge "pairwise" (some [("age", "mean")]) = dfMissingAge ∧
    handle_missing_data dfMissingAge "flag" (some [("age", "mean")]) = dfMissingAge ∧
    handle_missing_data dfMissingAge "listwise" (some [("age", "mean")]) =
      ⟨["age", "gender"], [[.num 30, .str "f"], [.num 20, .str "f"]]⟩ ∧
    (handle_missing_data dfMissingAge "bogus-policy" (some [("age", "mean")])).rows.getD 1 [] =
      [.num 25, .str "m"] := by
  have hval : colMeanPy (colValues dfMissingAge 0) = .num 25 := by
    have hnums : colNums (colValues dfMissingAge 0) = [30, 20] := by decide
    simp only [colMeanPy, hnums]
    norm_num [lmean]
  have hrun : handle_missing_data dfMissingAge "bogus-policy" (some [("age", "mean")]) =
      fillnaCol dfMissingAge 0 (colMeanPy (colValues dfMissingAge 0)) := rfl
  refine ⟨rfl, rfl, by decide, ?_⟩
  rw [hrun, hval]
  decide

/-- C7: the suppression threshold reaches only the displayed summary table;
the selected test and the computed TestResult are identical under any two
thresholds t1, t2 >= 1, for both continuous and categorical variables. -/
theorem suppression_display_only (orc : StatOracle) (sqrtO : ℚ → ℚ) (cdf : List CRow)
    (kdf : List KRow) (var : String) (order : List String) (nts : List NormalityTest)
    (useWeight : Bool) (t1 t2 : ℕ) (h1 : 1 ≤ t1) (h2 : 1 ≤ t2) :
    (analyzeContinuousVar orc sqrtO cdf var order nts useWeight t1).2 =
      (analyzeContinuousVar orc sqrtO cdf var order nts useWeight t2).2 ∧
    (analyzeCategoricalVar orc kdf order t1).2 = (analyzeCategoricalVar orc kdf order t2).2 :=
  ⟨rfl, rfl⟩

/-- C7 witness: thresholds 1 and 100 on concrete data. -/
theorem suppression_display_only_witness :
    (analyzeContinuousVar constOracle id dfTwoGroups "outcome" ["female", "male"] [] false 1).2 =
      (analyzeContinuousVar constOracle id dfTwoGroups "outcome" ["female", "male"] [] false 100).2 ∧
    (analyzeCategoricalVar constOracle dfTwoByTwo ["female", "male"] 1).2 =
      (analyzeCategoricalVar constOracle dfTwoByTwo ["female", "male"] 100).2 :=
  suppression_display_only constOracle id dfTwoGroups dfTwoByTwo "outcome" ["female", "male"]
    [] false 1 100 (by decide) (by decide)

/-- C3 (counterexample): in a suppressed row only the n field embeds the
threshold value; the mean (and the other statistical fields) carry the
fixed marker string "<threshold>", which does not contain the digit of the
threshold 7 and is identical to the marker used under threshold 5 - so not
every field is replaced by "a suppression marker string built from the
threshold". -/
theorem suppression_marker_fixed_string :
    summarize_continuous_variable (fun q => q) dfThreeF ["female"] false 7 =
      [suppressedContRow "female" 7] ∧
    (suppressedContRow "female" 7).n = .str "<7" ∧
    (suppressedContRow "female" 7).mean = .str "<threshold" ∧
    '7' ∉ "<threshold".toList ∧
    (suppressedContRow "female" 5).mean = (suppressedContRow "female" 7).mean := by
  refine ⟨by decide, rfl, rfl, by decide, rfl⟩

/-- C3 (amended): suppression is all-or-nothing.  Every row of the
continuous summary either reports a numeric n at least the threshold (the
real-statistics branch) or is exactly the fully-suppressed marker row, in
which n carries "<threshold value>" and every statistical field carries the
fixed marker "<threshold>"; likewise every categorical (level, gender) cell
either has numeric n >= threshold and a numeric percentage or carries
marker strings in both fields.  No row below the threshold exposes a real
mean or percentage. -/
theorem suppression_all_or_nothing (sqrtO : ℚ → ℚ) (cdf : List CRow) (kdf : List KRow)
    (order : List String) (useWeight : Bool) (t : ℕ) :
    (∀ row ∈ summarize_continuous_variable sqrtO cdf order useWeight t,
      (∃ k : ℕ, row.n = .num k ∧ t ≤ k) ∨ row = suppressedContRow row.gender t) ∧
    (∀ row ∈ summarize_categorical_variable kdf order t,
      (∃ k : ℕ, row.n = .num k ∧ t ≤ k ∧ ∃ q, row.pct = .num q) ∨
      (row.n = .str ("<" ++ toString t) ∧ row.pct = .str "<threshold")) := by
  constructor
  · intro row hrow
    rw [summarize_continuous_variable] at hrow
    simp only [List.mem_flatMap] at hrow
    obtain ⟨gender, _, hrow⟩ := hrow
    by_cases hmem : some gender ∈ cdf.map (·.gender)
    · simp only [hmem, if_true] at hrow
      by_cases h0 : ((genderRows cdf gender).filterMap (·.value)).length = 0
      · simp [h0] at hrow
      · by_cases hlt : ((genderRows cdf gender).filterMap (·.value)).length < t
        · right
          simp only [h0, hlt, if_true, if_false] at hrow
          rw [List.mem_singleton] at hrow
          rw [hrow]
          rfl
        · left
          simp only [h0, hlt, if_true, if_false] at hrow
          rw [List.mem_singleton] at hrow
          refine ⟨((genderRows cdf gender).filterMap (·.value)).length, ?_, by omega⟩
          rw [hrow]
    · simp [hmem] at hrow
  · intro row hrow
    rw [summarize_categorical_variable] at hrow
    simp only [List.mem_flatMap] at hrow
    obtain ⟨gender, _, hrow⟩ := hrow
    by_cases hmem : some gender ∈ kdf.map (·.gender)
    · simp only [hmem, if_true, List.mem_map] at hrow
      obtain ⟨level, _, hrow⟩ := hrow
      by_cases hlt : ((kGenderRows kdf gender).filter (fun r => r.level == some level)).length < t
      · right
        simp only [hlt, if_true] at hrow
        rw [← hrow]
        exact ⟨rfl, rfl⟩
      · left
        simp only [hlt, if_false] at hrow
        refine ⟨((kGenderRows kdf gender).filter (fun r => r.level == some level)).length,
          ?_, by omega, ?_⟩
        · rw [← hrow]
        · rw [← hrow]
          exact ⟨_, rfl⟩
    · simp [hmem] at hrow

/-- C3 witness: the theorem applied to concrete data containing a suppressed
group. -/
theorem suppression_all_or_nothing_witness :
    (∃ k : ℕ, (suppressedContRow "female" 7).n = .num k ∧ 7 ≤ k) ∨
      suppressedContRow "female" 7 =
        suppressedContRow (suppressedContRow "female" 7).gender 7 := by
  have h := (suppression_all_or_nothing (fun q => q) dfThreeF [] ["female"] false 7).1
    (suppressedContRow "female" 7)
  have hmem : suppressedContRow "female" 7 ∈
      summarize_continuous_variable (fun q => q) dfThreeF ["female"] false 7 := by
    have he : summarize_continuous_variable (fun q => q) dfThreeF ["female"] false 7 =
        [suppressedContRow "female" 7] := by decide
    rw [he]
    exact List.mem_singleton.mpr rfl
  exact h hmem

/- Banker's rounding moves a value by at most 1/2 (ulp at the last digit). -/
theorem abs_roundHalfEven_sub (q : ℚ) : |(roundHalfEven q : ℚ) - q| ≤ 1 / 2 := by
  have h0 : (⌊q⌋ : ℚ) ≤ q := Int.floor_le q
  have h1 : q < ⌊q⌋ + 1 := Int.lt_floor_add_one q
  simp only [roundHalfEven]
  by_cases hr : q - ⌊q⌋ < 1 / 2
  · simp only [hr, if_true]
    rw [abs_le]
    constructor <;> linarith
  · simp only [hr, if_false]
    by_cases hr2 : 1 / 2 < q - ⌊q⌋
    · simp only [hr2, if_true]
      push_cast
      rw [abs_le]
      constructor <;> linarith
    · simp only [hr2, if_false]
      by_cases hd : 2 ∣ ⌊q⌋
      · simp only [hd, if_true]
        rw [abs_le]
        constructor <;> linarith
      · simp only [hd, if_false]
        push_cast
        rw [abs_le]
        constructor <;> linarith

theorem abs_pyRound_sub (nd : ℕ) (x : ℚ) : |pyRound nd x - x| ≤ 1 / (2 * 10 ^ nd) := by
  have hpos : (0 : ℚ) < 10 ^ nd := by positivity
  have key : pyRound nd x - x =
      ((roundHalfEven (x * 10 ^ nd) : ℚ) - x * 10 ^ nd) / 10 ^ nd := by
    rw [pyRound]
    field_simp
    ring
  rw [key, abs_div, abs_of_pos hpos]
  rw [show (1 : ℚ) / (2 * 10 ^ nd) = (1 / 2) / 10 ^ nd by ring]
  have h2 := abs_roundHalfEven_sub (x * 10 ^ nd)
  gcongr

/- pctSum distributes over append and flatMap, and vanishes on other genders. -/
theorem pctSum_append (l1 l2 : List CategoricalLevel) (g : String) :
    pctSum (l1 ++ l2) g = pctSum l1 g + pctSum l2 g := by
  simp [pctSum, List.filter_append, List.filterMap_append]

theorem pctSum_flatMap (os : List String) (F : String → List CategoricalLevel) (g : String) :
    pctSum (os.flatMap F) g = (os.map (fun x => pctSum (F x) g)).sum := by
  induction os with
  | nil => simp [pctSum]
  | cons x rest ih => simp [List.flatMap_cons, pctSum_append, ih]

theorem pctSum_other (l : List CategoricalLevel) (g : String)
    (h : ∀ row ∈ l, row.gender ≠ g) : pctSum l g = 0 := by
  have hf : l.filter (fun r => r.gender == g) = [] := by
    apply List.filter_eq_nil_iff.mpr
    intro a ha
    simpa using h a ha
  simp [pctSum, hf]

/- Counting helpers for the percentage-sum argument. -/
theorem length_filter_partition (M : List String) (s : String) :
    (M.filter (fun x => x == s)).length + (M.filter (fun x => !(x == s))).length = M.length := by
  induction M with
  | nil => rfl
  | cons y ys ih =>
    by_cases hy : y = s
    · subst hy
      simp only [List.filter_cons, beq_self_eq_true, if_true, Bool.not_true,
        Bool.false_eq_true, if_false, List.length_cons]
      omega
    · have hne : (y == s) = false := beq_eq_false_iff_ne.mpr hy
      simp only [List.filter_cons, hne, Bool.false_eq_true, if_false, Bool.not_false,
        if_true, List.length_cons]
      omega

theorem count_eq_filter_length (M : List String) (s : String) :
    M.count s = (M.filter (fun x => x == s)).length := by
  rw [List.count, List.countP_eq_length_filter]

theorem sum_count_of_cover (S : List String) : ∀ (M : List String), S.Nodup →
    (∀ x ∈ M, x ∈ S) → (S.map (fun s => M.count s)).sum = M.length := by
  induction S with
  | nil =>
    intro M _ hcov
    cases M with
    | nil => rfl
    | cons y ys => exact absurd (hcov y (by simp)) (by simp)
  | cons s rest ih =>
    intro M hnd hcov
    rw [List.nodup_cons] at hnd
    have hpart := length_filter_partition M s
    have hcnt := count_eq_filter_length M s
    have hrw : rest.map (fun x => M.count x) =
        rest.map (fun x => (M.filter (fun y => !(y == s))).count x) := by
      apply List.map_congr_left
      intro x hx
      have hxs : x ≠ s := fun h => hnd.1 (h ▸ hx)
      rw [List.count_filter]
      simpa using hxs
    have hcov' : ∀ x ∈ M.filter (fun y => !(y == s)), x ∈ rest := by
      intro x hx
      have hxm := List.of_mem_filter hx
      have hxne : x ≠ s := by simpa using hxm
      have := hcov x (List.mem_of_mem_filter hx)
      simp only [List.mem_cons] at this
      rcases this with h | h
      · exact absurd h hxne
      · exact h
    have ihm := ih (M.filter (fun y => !(y == s))) hnd.2 hcov'
    simp only [List.map_cons, List.sum_cons, hrw, ihm]
    omega

/- summarize helpers: counts of a gender group's levels. -/
theorem kCount_eq (G : List KRow) (level : String) :
    ((G.filter (fun r => r.level == some level)).length) =
      (G.filterMap (·.level)).count level := by
  induction G with
  | nil => rfl
  | cons r rest ih =>
    cases hr : r.level with
    | none => simp [List.filter_cons, List.filterMap_cons, hr, ih]
    | some l =>
      by_cases hl : l = level
      · subst hl
        simp [List.filter_cons, List.filterMap_cons, hr, ih, List.count_cons]
      · have h1 : (some l == some level) = false := by
          simpa using hl
        simp [List.filter_cons, List.filterMap_cons, hr, ih, List.count_cons, hl, h1]

theorem kLevels_length (G : List KRow) (h : ∀ r ∈ G, r.level ≠ Option.none) :
    (G.filterMap (·.level)).length = G.length := by
  induction G with
  | nil => rfl
  | cons r rest ih =>
    cases hr : r.level with
    | none => exact absurd hr (h r (by simp))
    | some l =>
      simp only [List.filterMap_cons, hr, List.length_cons]
      rw [ih (fun x hx => h x (by simp [hx]))]

/- Sum manipulation helpers. -/
theorem map_sum_le (S : List String) (h : String → ℚ) (c : ℚ)
    (hb : ∀ a ∈ S, h a ≤ c) : (S.map h).sum ≤ S.length * c := by
  induction S with
  | nil => simp
  | cons x rest ih =>
    simp only [List.map_cons, List.sum_cons, List.length_cons]
    have h1 := ih (fun a ha => hb a (by simp [ha]))
    have h2 := hb x (by simp)
    push_cast
    nlinarith [h1, h2]

theorem sum_sub_abs (S : List String) (f g : String → ℚ) :
    |(S.map f).sum - (S.map g).sum| ≤ (S.map (fun a => |f a - g a|)).sum := by
  induction S with
  | nil => simp
  | cons x rest ih =>
    simp only [List.map_cons, List.sum_cons]
    calc |f x + (rest.map f).sum - (g x + (rest.map g).sum)|
        = |(f x - g x) + ((rest.map f).sum - (rest.map g).sum)| := by ring_nf
      _ ≤ |f x - g x| + |(rest.map f).sum - (rest.map g).sum| := abs_add _ _
      _ ≤ |f x - g x| + (rest.map (fun a => |f a - g a|)).sum := by linarith

theorem sum_single_contribution (os : List String) (F : String → ℚ) (g : String)
    (hz : ∀ x ∈ os, x ≠ g → F x = 0) (hc : os.count g = 1) :
    (os.map F).sum = F g := by
  induction os with
  | nil => simp at hc
  | cons x rest ih =>
    by_cases hx : x = g
    · subst hx
      rw [List.count_cons_self] at hc
      have hc0 : rest.count x = 0 := by omega
      have hz0 : ∀ z ∈ rest.map F, z = 0 := by
        intro z hz2
        rw [List.mem_map] at hz2
        obtain ⟨y, hy, rfl⟩ := hz2
        by_cases hyx : y = x
        · subst hyx
          exact absurd hy (List.count_eq_zero.mp hc0)
        · exact hz y (by simp [hy]) hyx
      simp only [List.map_cons, List.sum_cons]
      rw [List.sum_eq_zero hz0]
      ring
    · have hcr : rest.count g = 1 := by
        rwa [List.count_cons_of_ne (by exact fun h => hx h.symm)] at hc
      simp only [List.map_cons, List.sum_cons]
      rw [hz x (by simp) hx, ih (fun y hy => hz y (by simp [hy])) hcr]
      ring

theorem filterMap_eq_map_of_forall_some {α β : Type} (l : List α) (f : α → Option β)
    (g : α → β) (h : ∀ a ∈ l, f a = some (g a)) : l.filterMap f = l.map g := by
  induction l with
  | nil => rfl
  | cons x rest ih =>
    simp [List.filterMap_cons, h x (by simp), ih (fun a ha => h a (by simp [ha]))]

/-- C8 (amended): for a gender category with data, listed once in the
category order, whose cells are all unsuppressed AND whose group has no
missing values of the variable, the reported percentages across the observed
levels sum to 100 within the rounding tolerance (each cell is rounded to one
decimal, so the sum moves by at most levels/20); the denominator of each
percentage is the gender group's total count.  Without the no-missing-values
condition the sum falls short of 100 by the group's missing share (see the
counterexample). -/
theorem categorical_pct_sum_tolerance (kdf : List KRow) (order : List String) (t : ℕ)
    (gender : String)
    (hmem : some gender ∈ kdf.map (·.gender))
    (hcount : (order.map strLower).count gender = 1)
    (hnosup : ∀ level ∈ allLevels kdf,
      t ≤ ((kGenderRows kdf gender).filter (fun r => r.level == some level)).length)
    (hnomiss : ∀ r ∈ kGenderRows kdf gender, r.level ≠ Option.none) :
    |pctSum (summarize_categorical_variable kdf order t) gender - 100| ≤
      ((allLevels kdf).length : ℚ) * (1 / 20) := by
  have hTpos : 0 < (kGenderRows kdf gender).length := by
    rw [List.mem_map] at hmem
    obtain ⟨r, hr, hrg⟩ := hmem
    refine List.length_pos_of_mem (a := r) ?_
    rw [kGenderRows]
    exact List.mem_filter.mpr ⟨hr, by simp [hrg]⟩
  have hmem2 : some gender ∈ kdf.map (·.gender) := hmem
  have hunf : summarize_categorical_variable kdf order t =
      (order.map strLower).flatMap (fun g =>
        if some g ∈ kdf.map (·.gender) then
          (allLevels kdf).map (fun level =>
            if ((kGenderRows kdf g).filter (fun r => r.level == some level)).length < t then
              { level := level, gender := g,
                n := .str ("<" ++ toString t), pct := .str "<threshold" }
            else
              { level := level, gender := g,
                n := .num (((kGenderRows kdf g).filter (fun r => r.level == some level)).length),
                pct := .num (pyRound 1 (if 0 < (kGenderRows kdf g).length then
                  ((((kGenderRows kdf g).filter (fun r => r.level == some level)).length : ℚ) /
                    ((kGenderRows kdf g).length : ℚ) * 100) else 0)) })
        else []) := rfl
  rw [hunf, pctSum_flatMap]
  rw [sum_single_contribution _ _ gender ?hz hcount]
  case hz =>
    intro x hx hne
    apply pctSum_other
    intro row hrow
    by_cases hxm : some x ∈ kdf.map (·.gender)
    · simp only [hxm, if_true, List.mem_map] at hrow
      obtain ⟨level, _, hrow⟩ := hrow
      have hg : row.gender = x := by
        rw [← hrow]
        split <;> rfl
      rw [hg]
      exact hne
    · simp [hxm] at hrow
  simp only [hmem2, if_true]
  have hrows : ∀ level ∈ allLevels kdf,
      ¬ (((kGenderRows kdf gender).filter (fun r => r.level == some level)).length < t) := by
    intro level hl
    have := hnosup level hl
    omega
  rw [pctSum]
  have hfil : ((allLevels kdf).map (fun level =>
      if ((kGenderRows kdf gender).filter (fun r => r.level == some level)).length < t then
        ({ level := level, gender := gender,
           n := .str ("<" ++ toString t), pct := .str "<threshold" } : CategoricalLevel)
      else
        { level := level, gender := gender,
          n := .num (((kGenderRows kdf gender).filter (fun r => r.level == some level)).length),
          pct := .num (pyRound 1 (if 0 < (kGenderRows kdf gender).length then
            ((((kGenderRows kdf gender).filter (fun r => r.level == some level)).length : ℚ) /
              ((kGenderRows kdf gender).length : ℚ) * 100) else 0)) })).filter
        (fun r => r.gender == gender) =
      (allLevels kdf).map (fun level =>
        if ((kGenderRows kdf gender).filter (fun r => r.level == some level)).length < t then
          ({ level := level, gender := gender,
             n := .str ("<" ++ toString t), pct := .str "<threshold" } : CategoricalLevel)
        else
          { level := level, gender := gender,
            n := .num (((kGenderRows kdf gender).filter (fun r => r.level == some level)).length),
            pct := .num (pyRound 1 (if 0 < (kGenderRows kdf gender).length then
              ((((kGenderRows kdf gender).filter (fun r => r.level == some level)).length : ℚ) /
                ((kGenderRows kdf gender).length : ℚ) * 100) else 0)) }) := by
    apply List.filter_eq_self.mpr
    intro row hrow
    rw [List.mem_map] at hrow
    obtain ⟨level, _, hrow⟩ := hrow
    have hg : row.gender = gender := by
      rw [← hrow]
      split <;> rfl
    simp [hg]
  rw [hfil, List.filterMap_map]
  rw [filterMap_eq_map_of_forall_some _ _
    (fun level => pyRound 1
      ((((kGenderRows kdf gender).filter (fun r => r.level == some level)).length : ℚ) /
        ((kGenderRows kdf gender).length : ℚ) * 100)) ?hsome]
  case hsome =>
    intro level hl
    simp only [Function.comp]
    rw [if_neg (hrows level hl), if_pos hTpos]
  have htrue : ((allLevels kdf).map (fun level =>
      (((kGenderRows kdf gender).filter (fun r => r.level == some level)).length : ℚ) /
        ((kGenderRows kdf gender).length : ℚ) * 100)).sum = 100 := by
    have hstep : (allLevels kdf).map (fun level =>
        (((kGenderRows kdf gender).filter (fun r => r.level == some level)).length : ℚ) /
          ((kGenderRows kdf gender).length : ℚ) * 100) =
        (allLevels kdf).map (fun level =>
          ((((kGenderRows kdf gender).filterMap (·.level)).count level : ℕ) : ℚ) *
            (100 / ((kGenderRows kdf gender).length : ℚ))) := by
      apply List.map_congr_left
      intro level _
      rw [kCount_eq]
      ring
    rw [hstep, List.sum_map_mul_right]
    have hcast : ((allLevels kdf).map (fun level =>
        ((((kGenderRows kdf gender).filterMap (·.level)).count level : ℕ) : ℚ))).sum =
        ((((allLevels kdf).map (fun level =>
          ((kGenderRows kdf gender).filterMap (·.level)).count level)).sum : ℕ) : ℚ) := by
      rw [Nat.cast_list_sum, List.map_map]
      rfl
    rw [hcast]
    have hcov : ∀ x ∈ (kGenderRows kdf gender).filterMap (·.level), x ∈ allLevels kdf := by
      intro x hx
      rw [List.mem_filterMap] at hx
      obtain ⟨r, hr, hrl⟩ := hx
      rw [allLevels, List.mem_dedup, List.mem_filterMap]
      exact ⟨r, List.mem_of_mem_filter hr, hrl⟩
    have hnd : (allLevels kdf).Nodup := by
      rw [allLevels]
      exact List.nodup_dedup _
    rw [sum_count_of_cover _ _ hnd hcov, kLevels_length _ hnomiss]
    have hT0 : ((kGenderRows kdf gender).length : ℚ) ≠ 0 := by
      exact_mod_cast Nat.pos_iff_ne_zero.mp hTpos
    field_simp
  calc |((allLevels kdf).map (fun level => pyRound 1
        ((((kGenderRows kdf gender).filter (fun r => r.level == some level)).length : ℚ) /
          ((kGenderRows kdf gender).length : ℚ) * 100))).sum - 100|
      = |((allLevels kdf).map (fun level => pyRound 1
          ((((kGenderRows kdf gender).filter (fun r => r.level == some level)).length : ℚ) /
            ((kGenderRows kdf gender).length : ℚ) * 100))).sum -
        ((allLevels kdf).map (fun level =>
          (((kGenderRows kdf gender).filter (fun r => r.level == some level)).length : ℚ) /
            ((kGenderRows kdf gender).length : ℚ) * 100)).sum| := by rw [htrue]
    _ ≤ ((allLevels kdf).map (fun level => |pyRound 1
          ((((kGenderRows kdf gender).filter (fun r => r.level == some level)).length : ℚ) /
            ((kGenderRows kdf gender).length : ℚ) * 100) -
          (((kGenderRows kdf gender).filter (fun r => r.level == some level)).length : ℚ) /
            ((kGenderRows kdf gender).length : ℚ) * 100|)).sum := sum_sub_abs _ _ _
    _ ≤ ((allLevels kdf).length : ℚ) * (1 / 20) := by
        apply map_sum_le
        intro level _
        have := abs_pyRound_sub 1
          ((((kGenderRows kdf gender).filter (fun r => r.level == some level)).length : ℚ) /
            ((kGenderRows kdf gender).length : ℚ) * 100)
        norm_num at this ⊢
        exact this

/-- C8 witness: the theorem applied to a clean concrete group. -/
theorem categorical_pct_sum_tolerance_witness :
    |pctSum (summarize_categorical_variable dfCatClean ["female"] 1) "female" - 100| ≤
      ((allLevels dfCatClean).length : ℚ) * (1 / 20) :=
  categorical_pct_sum_tolerance dfCatClean ["female"] 1 "female" (by decide) (by decide)
    (by decide) (by decide)

/-- C8 (counterexample): the percentage denominator is the gender group's
total row count including rows with a missing variable value, so for a
gender with data and no suppressed cell the percentages can sum to 75,
far outside rounding tolerance of 100 (3+3 observed in two levels, 2
missing, denominator 8). -/
theorem categorical_pct_sum_counterexample :
    summarize_categorical_variable dfCatMissing ["female"] 1 =
      [⟨"a", "female", .num 3, .num (75 / 2)⟩, ⟨"b", "female", .num 3, .num (75 / 2)⟩] ∧
    pctSum (summarize_categorical_variable dfCatMissing ["female"] 1) "female" = 75 ∧
    ¬ (|pctSum (summarize_categorical_variable dfCatMissing ["female"] 1) "female" - 100| ≤
        ((allLevels dfCatMissing).length : ℚ) * (1 / 20)) := by
  have e1 : summarize_categorical_variable dfCatMissing ["female"] 1 =
      [⟨"a", "female", .num ((3 : ℕ) : ℚ),
        .num (pyRound 1 (((3 : ℕ) : ℚ) / ((8 : ℕ) : ℚ) * 100))⟩,
       ⟨"b", "female", .num ((3 : ℕ) : ℚ),
        .num (pyRound 1 (((3 : ℕ) : ℚ) / ((8 : ℕ) : ℚ) * 100))⟩] := rfl
  have e2 : pyRound 1 (((3 : ℕ) : ℚ) / ((8 : ℕ) : ℚ) * 100) = 75 / 2 := by
    norm_num [pyRound, roundHalfEven]
  have e1x : summarize_categorical_variable dfCatMissing ["female"] 1 =
      [⟨"a", "female", .num 3, .num (75 / 2)⟩, ⟨"b", "female", .num 3, .num (75 / 2)⟩] := by
    rw [e1, e2]
    norm_num
  have hsum : pctSum (summarize_categorical_variable dfCatMissing ["female"] 1) "female" = 75 := by
    rw [e1x, pctSum]
    simp [numOf]
  refine ⟨e1x, hsum, ?_⟩
  · rw [hsum]
    have hlev : ((allLevels dfCatMissing).length : ℚ) = 2 := by
      have : (allLevels dfCatMissing).length = 2 := by decide
      rw [this]
      norm_num
    rw [hlev]
    norm_num

/- Characterizations of the two gap generators. -/
theorem overallGapFun_iff (gi : GenderRow) :
    (match numOf gi.n, numOf gi.pct with
     | some _, some pct =>
       if 60 < pct then some (Gap.imbalance gi.gender pct) else Option.none
     | _, _ => (Option.none : Option Gap)) ≠ Option.none ↔
    ((numOf gi.n).isSome ∧ ∃ q, numOf gi.pct = some q ∧ 60 < q) := by
  cases hn : numOf gi.n <;> cases hp : numOf gi.pct <;> simp

theorem overallGaps_ne_nil_iff (bg : List GenderRow) :
    overallGaps bg ≠ [] ↔
      ∃ gi ∈ bg, (numOf gi.n).isSome ∧ ∃ q, numOf gi.pct = some q ∧ 60 < q := by
  rw [overallGaps, Ne, List.filterMap_eq_nil_iff]
  push_neg
  constructor
  · rintro ⟨gi, hgi, hne⟩
    exact ⟨gi, hgi, (overallGapFun_iff gi).mp hne⟩
  · rintro ⟨gi, hgi, hc⟩
    exact ⟨gi, hgi, (overallGapFun_iff gi).mpr hc⟩

theorem levelGaps_ne_nil_iff (var : String) (table : List CategoricalLevel) :
    levelGaps var table ≠ [] ↔
      ∃ e ∈ level_gender_counts table, (e.2.map Prod.snd).sum ≠ 0 ∧
        ∃ gc ∈ e.2, 70 < gc.2 / (e.2.map Prod.snd).sum * 100 := by
  rw [levelGaps, Ne, List.flatMap_eq_nil_iff]
  push_neg
  constructor
  · rintro ⟨e, he, hne⟩
    by_cases h0 : (e.2.map Prod.snd).sum = 0
    · rw [if_pos h0] at hne
      exact absurd rfl hne
    · rw [if_neg h0] at hne
      refine ⟨e, he, h0, ?_⟩
      rw [Ne, List.filterMap_eq_nil_iff] at hne
      push_neg at hne
      obtain ⟨gc, hgc, hne2⟩ := hne
      refine ⟨gc, hgc, ?_⟩
      by_contra h70
      rw [if_neg h70] at hne2
      exact hne2 rfl
  · rintro ⟨e, he, h0, gc, hgc, h70⟩
    refine ⟨e, he, ?_⟩
    rw [if_neg h0]
    intro hnil
    rw [List.filterMap_eq_nil_iff] at hnil
    have := hnil gc hgc
    rw [if_pos h70] at this
    simp at this

/-- C9 (amended): the Bias Assessor's representation-gaps list (with a
non-degenerate total) is non-empty if and only if some gender category's
numeric share exceeds 60% of the sample OR some level of a categorical
variable has a gender exceeding 70% of that level's unsuppressed counts -
the second trigger is part of the code and of spec section 4.8(b), so the
"iff share > 60%" claim of the testable-properties list is too narrow. -/
theorem representation_gaps_iff (bg : List GenderRow) (cats : List CatResult) :
    assess_representation_gaps bg cats ≠ [] ↔
      totalN bg ≠ 0 ∧
      ((∃ gi ∈ bg, (numOf gi.n).isSome ∧ ∃ q, numOf gi.pct = some q ∧ 60 < q) ∨
       (∃ vr ∈ cats, ∃ e ∈ level_gender_counts vr.table,
          (e.2.map Prod.snd).sum ≠ 0 ∧
          ∃ gc ∈ e.2, 70 < gc.2 / (e.2.map Prod.snd).sum * 100)) := by
  rw [assess_representation_gaps]
  by_cases h0 : totalN bg = 0
  · simp [h0]
  · rw [if_neg h0]
    constructor
    · intro hne
      refine ⟨h0, ?_⟩
      by_cases ho : overallGaps bg = []
      · right
        have hfl : cats.flatMap (fun vr => levelGaps vr.var vr.table) ≠ [] := by
          intro hc
          exact hne (by rw [ho, hc]; rfl)
        rw [Ne, List.flatMap_eq_nil_iff] at hfl
        push_neg at hfl
        obtain ⟨vr, hvr, hlg⟩ := hfl
        obtain ⟨e, he, hrest⟩ := (levelGaps_ne_nil_iff vr.var vr.table).mp hlg
        exact ⟨vr, hvr, e, he, hrest⟩
      · left
        exact (overallGaps_ne_nil_iff bg).mp ho
    · rintro ⟨-, hor | hlv⟩
      · intro hnil
        rcases List.append_eq_nil.mp hnil with ⟨hh1, -⟩
        exact (overallGaps_ne_nil_iff bg).mpr hor hh1
      · intro hnil
        rcases List.append_eq_nil.mp hnil with ⟨-, hh2⟩
        obtain ⟨vr, hvr, e, he, hrest⟩ := hlv
        rw [List.flatMap_eq_nil_iff] at hh2
        exact (levelGaps_ne_nil_iff vr.var vr.table).mpr ⟨e, he, hrest⟩ (hh2 vr hvr)

/-- C9 (counterexample): a run on a perfectly balanced sample (50%/50%, no
gender above 60%) still produces a non-empty representation-gaps list,
because one categorical level is populated by a single gender beyond 70%.
So "non-empty iff some gender share exceeds 60%" is false on the code. -/
theorem representation_gaps_counterexample :
    assess_representation_gaps
        ((summarize_by_gender genderColBalanced ["female", "male"]).map toGenderRow)
        [⟨"dept", summarize_categorical_variable dfDept ["female", "male"] 1⟩] ≠ [] ∧
    summarize_by_gender genderColBalanced ["female", "male"] =
      [⟨"female", 2, 50, 0⟩, ⟨"male", 2, 50, 0⟩] ∧
    ¬ ((60 : ℚ) < 50) := by
  have hbg : summarize_by_gender genderColBalanced ["female", "male"] =
      [⟨"female", 2, 50, 0⟩, ⟨"male", 2, 50, 0⟩] := by
    simp [summarize_by_gender, genderColBalanced, pyRound, roundHalfEven]
    norm_num
  have hlgc : level_gender_counts
      (summarize_categorical_variable dfDept ["female", "male"] 1) =
      [("x", [("female", ((2 : ℕ) : ℚ))]), ("y", [("male", ((2 : ℕ) : ℚ))])] := by
    decide
  constructor
  · rw [hbg]
    have h0 : totalN ([⟨"female", 2, 50, 0⟩, ⟨"male", 2, 50, 0⟩].map toGenderRow) ≠ 0 := by
      simp [totalN, toGenderRow, numOf]
    rw [assess_representation_gaps, if_neg h0]
    intro hnil
    rcases List.append_eq_nil.mp hnil with ⟨-, hh2⟩
    rw [List.flatMap_eq_nil_iff, List.forall_mem_cons] at hh2
    have hlg : levelGaps "dept"
        (summarize_categorical_variable dfDept ["female", "male"] 1) = [] := hh2.1
    rw [levelGaps, hlgc] at hlg
    simp only [List.flatMap_cons, List.flatMap_nil, List.append_nil, List.map_cons,
      List.map_nil, List.sum_cons, List.sum_nil] at hlg
    norm_num at hlg
    exact Option.some_ne_none _ hlg.1
  · exact ⟨hbg, by norm_num⟩
